import Mathlib

/-
Verification development for `protobuf-array-stream`.

The library is a Node.js transform stream (`RepeatedFieldStream`, `src/index.ts`)
that incrementally decodes a Protocol-Buffers message containing exactly one
repeated field, emitting one value per element of that field.  The shallow
embedding below translates the decoder's state machine byte for byte:

* buffers become `List Nat` (one entry per byte);
* JavaScript numbers flowing through 32-bit bitwise operators are embedded as
  `Int` together with explicit `ToUint32`/`ToInt32` conversions (`toUint32`,
  `ofUint32`), so that `decodeVarint` has exactly the JS overflow semantics;
* the mutable fields of the class (`buffer`, `readOffset`, `tag`, `nextToken`,
  `currentPayloadSize`) become the structure `DecoderState`;
* the `while` loops of `detectVarint`, `detectPayload`, `_transform` and
  `_flush` are written as fuel-indexed recursions.  For the two scan loops the
  fuel `buffer.length - readOffset` is exact (each iteration increments
  `readOffset` and stops at the buffer end), so the definitions compute the
  same result as the unbounded loops.  The chunk-processing loop of
  `_transform` is kept fuel-indexed (`runLoop`), with `none` meaning the fuel
  ran out; termination-insensitive statements are phrased through the
  `∃ fuel` predicates below.
* the validation logic of the constructor (`validateMessage`) is embedded over
  a finite-map model of the protobufjs `Root` collaborator.

External collaborators (the protobufjs encoder, and the scalar wire-value
readers such as `Reader.fixed32`) are not part of the repository; the few
places that need them model them from the spec's description of the standard
wire format, and say so in their doc comments.
-/

namespace ProtobufArrayStream

/-! ## Constants (`src/constants.ts`) -/

namespace WIRE_TYPES

def VARINT : Nat := 0

def I64 : Nat := 1

def LEN : Nat := 2

def I32 : Nat := 5

end WIRE_TYPES

namespace MASKS

/-- `MSB: 0b01111111` -/
def MSB : Nat := 127

end MASKS

/-- `TOKENS = { TAG: 0, LENGTH: 1, PAYLOAD: 3 }`: only compared for equality in
the source, so embedded as an inductive. -/
inductive Token where
  | TAG
  | LENGTH
  | PAYLOAD
deriving DecidableEq, Repr

/-! ## JavaScript 32-bit bitwise arithmetic

`decodeVarint` combines bytes with `|` and `<<`, which in JavaScript convert
their operands with ToInt32/ToUint32 and mask shift counts modulo 32. -/

/-- JavaScript ToUint32 of an integer. -/
def toUint32 (x : Int) : Nat := (x % 4294967296).toNat

/-- Reinterpret a 32-bit unsigned value as a signed (two's complement) one,
i.e. the value JavaScript bitwise operators produce. -/
def ofUint32 (n : Nat) : Int :=
  if n < 2147483648 then (n : Int) else (n : Int) - 4294967296

/-- JavaScript `x << k` (shift count masked modulo 32, result ToInt32). -/
def jsShl (x : Int) (k : Nat) : Int :=
  ofUint32 ((toUint32 x <<< (k % 32)) % 4294967296)

/-- JavaScript `x | y`. -/
def jsOr (x y : Int) : Int :=
  ofUint32 (toUint32 x ||| toUint32 y)

/-! ## Varint primitive (`decodeVarint`, `src/index.ts` lines 251-262) -/

/-- `RepeatedFieldStream.decodeVarint`: little-endian base-128 accumulation
with JavaScript bitwise semantics. -/
def decodeVarint (varint : List Nat) : Int :=
  varint.enum.foldl
    (fun number p =>
      let currentByte := p.2
      let sevenBits := currentByte &&& MASKS.MSB
      let shift := p.1 * 7
      jsOr number (jsShl (Int.ofNat sevenBits) shift))
    0

/-- The value the spec ascribes to a varint byte span: the sum over byte
index `i` of `(byte_i AND 0x7f) * 128 ^ i`.  Written from the spec's words
(§4.3), to be compared with `decodeVarint`. -/
def specVarintValue (bytes : List Nat) : Nat :=
  bytes.enum.foldl (fun n p => n + (p.2 &&& 127) * 128 ^ p.1) 0

/-! ## Scan loops (`detectVarint`, `detectPayload`) -/

/-- Body of the `while` loop of `detectVarint` (lines 282-295): scan from
`readOffset`, one byte per iteration; a byte with clear high bit terminates.
The fuel is exact: the loop advances `readOffset` by one per iteration and
stops at the buffer end, so `buffer.length - readOffset` iterations always
suffice. -/
def detectVarintAux (buffer : List Nat) : Nat → Nat → Bool × Nat
  | readOffset, 0 => (false, readOffset)
  | readOffset, fuel + 1 =>
    if readOffset < buffer.length then
      if (buffer.getD readOffset 0) >>> 7 = 0 then
        (true, readOffset + 1)
      else
        detectVarintAux buffer (readOffset + 1) fuel
    else (false, readOffset)

/-- `detectVarint`, returning (found a terminator byte, final `readOffset`). -/
def detectVarint (buffer : List Nat) (readOffset : Nat) : Bool × Nat :=
  detectVarintAux buffer readOffset (buffer.length - readOffset)

/-- Body of the `while` loop of `detectPayload` (lines 297-306): advance
`readOffset` while it is below both `currentPayloadSize` and the buffer
length.  `currentPayloadSize` is an `Int` because it comes from
`decodeVarint`.  The fuel `buffer.length - readOffset` is again exact. -/
def detectPayloadAux (bufLen : Nat) (size : Int) : Nat → Nat → Nat
  | readOffset, 0 => readOffset
  | readOffset, fuel + 1 =>
    if (readOffset : Int) < size ∧ readOffset < bufLen then
      detectPayloadAux bufLen size (readOffset + 1) fuel
    else readOffset

/-- `detectPayload`, returning (payload complete, final `readOffset`);
completion is `readOffset === currentPayloadSize`. -/
def detectPayload (bufLen : Nat) (size : Int) (readOffset : Nat) : Bool × Nat :=
  let off := detectPayloadAux bufLen size readOffset (bufLen - readOffset)
  (decide ((off : Int) = size), off)

/-! ## Decoder state and field metadata -/

/-- Decode-time failures surfaced through the stream's error channel:
`ERRORS.TAG` (framing) and `ERRORS.PAYLOAD` (value decode). -/
inductive StreamError where
  | tagMismatch (expected actual : Int)
  | payload
deriving DecidableEq, Repr

/-- The mutable per-stream state of `RepeatedFieldStream`. `tag` is
`number | null` in the source (`Option Int` here); note the source guards the
first assignment with the *falsy* test `!this.tag`. -/
structure DecoderState where
  buffer : List Nat
  readOffset : Nat
  tag : Option Int
  nextToken : Token
  currentPayloadSize : Int
deriving DecidableEq, Repr

/-- The resolved repeated-field metadata (`getRepeatedFieldDetails` result):
wire type, packed flag and the element decode function.  The decode function
itself (protobufjs `Reader` / embedded-message codec) is an external
collaborator, so it is a parameter; `none` models it throwing. -/
structure RepeatedFieldInfo (V : Type) where
  wireType : Nat
  isPacked : Bool
  decode : List Nat → Option V

/-- `getPayloadSizeInBytes` (lines 240-249). -/
def getPayloadSizeInBytes (wireType : Nat) : Int :=
  if wireType = WIRE_TYPES.I32 then 4
  else if wireType = WIRE_TYPES.I64 then 8
  else 0

/-- The state set up by the constructor (lines 60-66). -/
def initState {V : Type} (f : RepeatedFieldInfo V) : DecoderState :=
  { buffer := []
    readOffset := 0
    tag := none
    nextToken := Token.TAG
    currentPayloadSize := getPayloadSizeInBytes f.wireType }

/-- JavaScript falsiness of `this.tag` (`!this.tag` is true for `null` and
for `0`). -/
def tagIsFalsy (t : Option Int) : Bool :=
  match t with
  | none => true
  | some v => decide (v = 0)

/-! ## The three token branches of `decode()` (lines 308-363) -/

/-- The token successor chosen after a completed TAG varint:
`LENGTH` if the field is length-delimited or packed, else `PAYLOAD`. -/
def tokenAfterTag {V : Type} (f : RepeatedFieldInfo V) : Token :=
  if f.wireType = WIRE_TYPES.LEN ∨ f.isPacked = true then Token.LENGTH
  else Token.PAYLOAD

/-- The `if (this.nextToken === TOKENS.TAG)` branch. -/
def tagPhase {V : Type} (f : RepeatedFieldInfo V) (s : DecoderState) :
    Except StreamError DecoderState :=
  if s.nextToken = Token.TAG then
    match detectVarint s.buffer s.readOffset with
    | (true, off) =>
      if tagIsFalsy s.tag then
        .ok { s with
              tag := some (decodeVarint (s.buffer.take off))
              buffer := s.buffer.drop off
              readOffset := 0
              nextToken := tokenAfterTag f }
      else if decodeVarint (s.buffer.take off) ≠ s.tag.getD 0 then
        .error (.tagMismatch (s.tag.getD 0) (decodeVarint (s.buffer.take off)))
      else
        .ok { s with
              buffer := s.buffer.drop off
              readOffset := 0
              nextToken := tokenAfterTag f }
    | (false, off) => .ok { s with readOffset := off }
  else .ok s

/-- The `if (this.nextToken === TOKENS.LENGTH)` branch (never throws). -/
def lengthPhase {V : Type} (f : RepeatedFieldInfo V) (s : DecoderState) :
    DecoderState :=
  if s.nextToken = Token.LENGTH then
    match detectVarint s.buffer s.readOffset with
    | (true, off) =>
      { s with
        currentPayloadSize :=
          if f.isPacked then s.currentPayloadSize
          else decodeVarint (s.buffer.take off)
        buffer := s.buffer.drop off
        readOffset := 0
        nextToken := Token.PAYLOAD }
    | (false, off) => { s with readOffset := off }
  else s

/-- The `if (this.nextToken === TOKENS.PAYLOAD)` branch; returns the (at most
one) pushed entry alongside the new state. -/
def payloadPhase {V : Type} (f : RepeatedFieldInfo V) (s : DecoderState) :
    Except StreamError (DecoderState × List V) :=
  if s.nextToken = Token.PAYLOAD then
    match
      if f.wireType = WIRE_TYPES.VARINT then detectVarint s.buffer s.readOffset
      else detectPayload s.buffer.length s.currentPayloadSize s.readOffset
    with
    | (true, off) =>
      match f.decode (s.buffer.take off) with
      | none => .error .payload
      | some entry =>
        if f.isPacked = false then
          .ok ({ s with
                 buffer := s.buffer.drop off
                 readOffset := 0
                 currentPayloadSize := 0
                 nextToken := Token.TAG }, [entry])
        else
          .ok ({ s with
                 buffer := s.buffer.drop off
                 readOffset := 0
                 nextToken := Token.PAYLOAD }, [entry])
    | (false, off) => .ok ({ s with readOffset := off }, [])
  else .ok (s, [])

/-- The scrutinee of the PAYLOAD branch: the varint-terminated scan for
VARINT fields, the byte-count scan otherwise. -/
def payloadScan {V : Type} (f : RepeatedFieldInfo V) (s : DecoderState) :
    Bool × Nat :=
  if f.wireType = WIRE_TYPES.VARINT then detectVarint s.buffer s.readOffset
  else detectPayload s.buffer.length s.currentPayloadSize s.readOffset

/-- One call of `this.decode()`: the three token branches in sequence, with
errors thrown out of the method. -/
def decode {V : Type} (f : RepeatedFieldInfo V) (s : DecoderState) :
    Except StreamError (DecoderState × List V) := do
  let s1 ← tagPhase f s
  let s2 := lengthPhase f s1
  payloadPhase f s2

/-! ## The chunk loop (`_transform` / `_flush`) -/

/-- Result of running the `while (this.readOffset < this.buffer.length)`
loop: either the loop exits normally (state plus all entries pushed so far),
or `decode()` threw after pushing the accumulated entries. -/
inductive LoopOutcome (V : Type) where
  | ok (s : DecoderState) (out : List V)
  | fail (out : List V) (e : StreamError)
deriving DecidableEq, Repr

/-- Fuel-indexed run of the decode loop; `none` means the fuel ran out before
the loop exited.  (The source loop is unbounded; all claims about it are
phrased through `∃ fuel` so that they are insensitive to the bound.) -/
def runLoop {V : Type} (f : RepeatedFieldInfo V) :
    Nat → DecoderState → List V → Option (LoopOutcome V)
  | fuel, s, acc =>
    if s.readOffset < s.buffer.length then
      match fuel with
      | 0 => none
      | fuel + 1 =>
        match decode f s with
        | .error e => some (.fail acc e)
        | .ok (s', out) => runLoop f fuel s' (acc ++ out)
    else some (.ok s acc)

/-- `_transform`: concatenate the chunk onto the buffer, then run the loop. -/
def transformChunk {V : Type} (f : RepeatedFieldInfo V) (fuel : Nat)
    (s : DecoderState) (acc : List V) (chunk : List Nat) :
    Option (LoopOutcome V) :=
  runLoop f fuel { s with buffer := s.buffer ++ chunk } acc

/-- Feeding a whole list of chunks through `_transform`, stopping at the
first error (the stream is terminal on error). -/
def feedChunks {V : Type} (f : RepeatedFieldInfo V) (fuel : Nat) :
    DecoderState → List V → List (List Nat) → Option (LoopOutcome V)
  | s, acc, [] => some (.ok s acc)
  | s, acc, c :: cs =>
    match transformChunk f fuel s acc c with
    | none => none
    | some (.ok s' acc') => feedChunks f fuel s' acc' cs
    | some (.fail acc' e) => some (.fail acc' e)

/-- What the consumer observes: the emitted elements and the error outcome. -/
def outcomeOf {V : Type} : LoopOutcome V → List V × Option StreamError
  | .ok _ out => (out, none)
  | .fail out e => (out, some e)

/-- Appending further input bytes onto a decoder state's buffer (what a later
chunk arrival does before the loop is re-entered). -/
def extendBuf (s : DecoderState) (e : List Nat) : DecoderState :=
  { s with buffer := s.buffer ++ e }

/-- The decode loop, run from state `s` with already-emitted `acc`,
terminates with outcome `R` (for some fuel; the source loop is unbounded). -/
def LoopTerm {V : Type} (f : RepeatedFieldInfo V) (s : DecoderState)
    (acc : List V) (R : LoopOutcome V) : Prop :=
  ∃ fuel, runLoop f fuel s acc = some R

/-- Feeding the chunk list from state `s` (with already-emitted `acc`)
terminates with the given observable outcome. -/
def FeedTermFrom {V : Type} (f : RepeatedFieldInfo V) (s : DecoderState)
    (acc : List V) (chunks : List (List Nat))
    (o : List V × Option StreamError) : Prop :=
  ∃ fuel, (feedChunks f fuel s acc chunks).map outcomeOf = some o

/-- The stream, started from the constructor state, terminates on the given
chunk sequence with the given observable outcome. -/
def FeedTerm {V : Type} (f : RepeatedFieldInfo V) (chunks : List (List Nat))
    (o : List V × Option StreamError) : Prop :=
  FeedTermFrom f (initState f) [] chunks o

/-- `cleanup()` as far as the decoder state is concerned: the buffer is
dropped (`this.buffer = Buffer.alloc(0)`). -/
def cleanupState (s : DecoderState) : DecoderState :=
  { s with buffer := [] }

/-! ## Constructor validation (`validateMessage`, lines 96-124)

The protobufjs `Root` collaborator is embedded as a finite map from type
names to message descriptors; `root.lookupType` throwing for a missing name
becomes an `Option`. -/

/-- A field as far as validation is concerned: its name and `repeated` rule. -/
structure ProtoField where
  name : String
  repeated : Bool
deriving DecidableEq, Repr

/-- A message type: its `fieldsArray`. -/
structure ProtoMessage where
  fieldsArray : List ProtoField
deriving DecidableEq, Repr

/-- A protobufjs `Root`: named message types. -/
structure ProtoRoot where
  types : List (String × ProtoMessage)
deriving DecidableEq, Repr

/-- `root.lookupType(messageName)`, with the thrown "no such type" turned
into `none`. -/
def lookupType (root : ProtoRoot) (messageName : String) : Option ProtoMessage :=
  (root.types.find? (fun p => p.1 == messageName)).map (fun p => p.2)

/-- The four construction-time `RepeatedFieldStreamError`s
(`ERRORS.MESSAGE` in `src/constants.ts`). -/
inductive ValidationError where
  | notExists (messageName : String)
  | emptyField (messageName : String)
  | moreFields (messageName : String) (fieldCount : Nat)
  | notRepeated (messageName : String) (fieldName : String)
deriving DecidableEq, Repr

/-- `RepeatedFieldStream.validateMessage`: lookup, then the empty /
more-than-one / not-repeated checks in source order. -/
def validateMessage (root : ProtoRoot) (messageName : String) :
    Except ValidationError Unit :=
  match lookupType root messageName with
  | none => .error (.notExists messageName)
  | some MessageType =>
    let fieldCount := MessageType.fieldsArray.length
    match MessageType.fieldsArray.head? with
    | none => .error (.emptyField messageName)
    | some repeatedField =>
      if fieldCount > 1 then .error (.moreFields messageName fieldCount)
      else if repeatedField.repeated = false then
        .error (.notRepeated messageName repeatedField.name)
      else .ok ()

/-! ## Spec-modelled external collaborators

The scalar wire-value readers and the encoder live in protobufjs, outside
this repository; the concrete instances below are modelled from the spec's
description of the standard wire format (§6) and of the external value
codec (§4.1). -/

/-- Little-endian 4-byte encoding of a 32-bit value. -/
def toLE4 (v : Nat) : List Nat :=
  [v % 256, v / 256 % 256, v / 65536 % 256, v / 16777216 % 256]

/-- Modelled from the spec: the external wire-value reader for `fixed32`
(protobufjs `Reader.fixed32`, not part of this repository) — reads a 4-byte
little-endian unsigned value and throws (`none`) on a span of any other
length. -/
def fixed32Reader (payload : List Nat) : Option Nat :=
  if payload.length = 4 then
    some (payload.getD 0 0 + payload.getD 1 0 * 256 +
          payload.getD 2 0 * 65536 + payload.getD 3 0 * 16777216)
  else none

/-- The `repeated fixed32 ... = 1 [packed = false]` field descriptor:
`getWriteType` maps `fixed32` to I32, and `packed === false` disables
packing. -/
def fixed32FieldNP : RepeatedFieldInfo Nat :=
  { wireType := WIRE_TYPES.I32, isPacked := false, decode := fixed32Reader }

/-- Modelled from the spec: the standard (protobufjs) encoding of one message
whose single repeated `fixed32` field has number 1 and is not packed — each
element is a tag byte `(1 << 3) | 5 = 0x0d` followed by its 4 little-endian
payload bytes (spec §6 wire format). -/
def encodeUnpackedFixed32 (values : List Nat) : List Nat :=
  (values.map (fun v => 13 :: toLE4 v)).flatten

/-- Modelled from the spec: the external varint wire-value reader (protobufjs
`Reader`), restricted to the small non-negative values appearing in the
concrete runs below, where it returns the base-128 value of the span. -/
def varintReaderNat (payload : List Nat) : Option Nat :=
  some (specVarintValue payload)

/-- A `repeated int32 ... = 1 [packed = false]` field: `getWriteType` maps
`int32` to VARINT, `packed === false` disables packing. -/
def int32FieldNP : RepeatedFieldInfo Nat :=
  { wireType := WIRE_TYPES.VARINT, isPacked := false, decode := varintReaderNat }

/-- A `repeated int32 ... = 1` field with default packing: VARINT and
`isPacked = true`. -/
def int32FieldPacked : RepeatedFieldInfo Nat :=
  { wireType := WIRE_TYPES.VARINT, isPacked := true, decode := varintReaderNat }

/-- A `repeated bytes ... = 1` field: LEN wire type, never packed, and the
decoder returns the raw payload span unchanged (the `DATA_TYPES.BYTES`
branch of `getDecoder`). -/
def bytesFieldNP : RepeatedFieldInfo (List Nat) :=
  { wireType := WIRE_TYPES.LEN, isPacked := false, decode := fun p => some p }

/-! # Lemmas

## The varint scan -/

theorem detectVarintAux_true_bounds (b : List Nat) :
    ∀ fuel r off, detectVarintAux b r fuel = (true, off) →
      r < off ∧ off ≤ b.length := by
  intro fuel
  induction fuel with
  | zero => intro r off h; simp [detectVarintAux] at h
  | succ fuel ih =>
    intro r off h
    unfold detectVarintAux at h
    split at h
    · split at h
      · cases h; rename_i hr _; omega
      · have := ih (r + 1) off h; omega
    · simp at h

theorem detectVarintAux_true_mono (b : List Nat) :
    ∀ fuel r off k, detectVarintAux b r fuel = (true, off) →
      detectVarintAux b r (fuel + k) = (true, off) := by
  intro fuel
  induction fuel with
  | zero => intro r off k h; simp [detectVarintAux] at h
  | succ fuel ih =>
    intro r off k h
    unfold detectVarintAux at h
    rw [Nat.succ_add]
    unfold detectVarintAux
    split at h
    · rename_i hr
      rw [if_pos hr]
      split at h
      · rename_i hterm
        rw [if_pos hterm]
        exact h
      · rename_i hterm
        rw [if_neg hterm]
        exact ih (r + 1) off k h
    · simp at h

theorem detectVarintAux_true_append (b e : List Nat) :
    ∀ fuel r off, detectVarintAux b r fuel = (true, off) →
      detectVarintAux (b ++ e) r fuel = (true, off) := by
  intro fuel
  induction fuel with
  | zero => intro r off h; simp [detectVarintAux] at h
  | succ fuel ih =>
    intro r off h
    unfold detectVarintAux at h ⊢
    split at h
    · rename_i hr
      have hlen : r < (b ++ e).length := by simp; omega
      rw [if_pos hlen, List.getD_append _ _ _ _ hr]
      split at h
      · rename_i hterm
        rw [if_pos hterm]
        exact h
      · rename_i hterm
        rw [if_neg hterm]
        exact ih (r + 1) off h
    · simp at h

theorem detectVarintAux_false_char (b : List Nat) :
    ∀ fuel r off, r ≤ b.length → b.length ≤ r + fuel →
      detectVarintAux b r fuel = (false, off) →
      off = b.length ∧ ∀ i, r ≤ i → i < b.length → (b.getD i 0) >>> 7 ≠ 0 := by
  intro fuel
  induction fuel with
  | zero =>
    intro r off h1 h2 h
    simp [detectVarintAux] at h
    constructor
    · omega
    · intro i hi1 hi2; omega
  | succ fuel ih =>
    intro r off h1 h2 h
    unfold detectVarintAux at h
    split at h
    · split at h
      · simp at h
      · have := ih (r + 1) off (by omega) (by omega) h
        refine ⟨this.1, ?_⟩
        intro i hi1 hi2
        rcases Nat.eq_or_lt_of_le hi1 with rfl | hlt
        · assumption
        · exact this.2 i hlt hi2
    · cases h; constructor
      · omega
      · intro i h1 h2; omega

theorem detectVarint_true_bounds (b : List Nat) (r off : Nat)
    (h : detectVarint b r = (true, off)) : r < off ∧ off ≤ b.length :=
  detectVarintAux_true_bounds b _ r off h

theorem detectVarint_true_append (b e : List Nat) (r off : Nat)
    (h : detectVarint b r = (true, off)) :
    detectVarint (b ++ e) r = (true, off) := by
  have hb := detectVarint_true_bounds b r off h
  have h1 := detectVarintAux_true_append b e _ r off h
  have h2 := detectVarintAux_true_mono (b ++ e) _ r off e.length h1
  unfold detectVarint
  have h3 : (b ++ e).length - r = b.length - r + e.length := by simp; omega
  rw [h3]
  exact h2

theorem detectVarint_false_char (b : List Nat) (r off : Nat) (hr : r ≤ b.length)
    (h : detectVarint b r = (false, off)) :
    off = b.length ∧ ∀ i, r ≤ i → i < b.length → (b.getD i 0) >>> 7 ≠ 0 :=
  detectVarintAux_false_char b _ r off hr (by omega) h

theorem detectVarintAux_succ (b : List Nat) (r fuel : Nat) :
    detectVarintAux b r (fuel + 1) =
      if r < b.length then
        if (b.getD r 0) >>> 7 = 0 then (true, r + 1)
        else detectVarintAux b (r + 1) fuel
      else (false, r) := rfl

/-- One non-terminator step of the scan. -/
theorem detectVarint_step (c : List Nat) (r : Nat) (hr : r < c.length)
    (hnt : (c.getD r 0) >>> 7 ≠ 0) :
    detectVarint c r = detectVarint c (r + 1) := by
  unfold detectVarint
  have h1 : c.length - r = (c.length - (r + 1)) + 1 := by omega
  rw [h1, detectVarintAux_succ, if_pos hr, if_neg hnt]

/-- The scan may start anywhere inside a run of continuation bytes. -/
theorem detectVarint_skip (c : List Nat) (m : Nat) (hm : m ≤ c.length) :
    ∀ d r, m - r = d → r ≤ m →
      (∀ i, r ≤ i → i < m → (c.getD i 0) >>> 7 ≠ 0) →
      detectVarint c r = detectVarint c m := by
  intro d
  induction d with
  | zero =>
    intro r hd hr _
    have h1 : r = m := by omega
    rw [h1]
  | succ d ih =>
    intro r hd hr hnt
    have hrm : r < m := by omega
    rw [detectVarint_step c r (by omega) (hnt r le_rfl hrm)]
    exact ih (r + 1) (by omega) (by omega) (fun i h1 h2 => hnt i (by omega) h2)

/-- A stalled scan resumes on the appended bytes exactly where a fresh scan
from the old buffer end would. -/
theorem detectVarint_false_append (b e : List Nat) (r off : Nat)
    (hr : r ≤ b.length) (h : detectVarint b r = (false, off)) :
    detectVarint (b ++ e) r = detectVarint (b ++ e) b.length := by
  have hc := detectVarint_false_char b r off hr h
  apply detectVarint_skip (b ++ e) b.length (by simp) (b.length - r) r rfl hr
  intro i h1 h2
  rw [List.getD_append _ _ _ _ h2]
  exact hc.2 i h1 h2

theorem detectVarint_ge (b : List Nat) (r : Nat) (hr : b.length ≤ r) :
    detectVarint b r = (false, r) := by
  unfold detectVarint
  rw [Nat.sub_eq_zero_of_le hr]
  rfl

/-! ## The payload scan -/

/-- Full characterization of the payload cursor advance. -/
theorem detectPayloadAux_char (L : Nat) (sz : Int) :
    ∀ fuel r, r ≤ L → L ≤ r + fuel →
      detectPayloadAux L sz r fuel =
        if (r : Int) < sz then min sz.toNat L else r := by
  intro fuel
  induction fuel with
  | zero =>
    intro r h1 h2
    unfold detectPayloadAux
    split
    · rename_i hcond
      omega
    · rfl
  | succ fuel ih =>
    intro r h1 h2
    unfold detectPayloadAux
    split
    · rename_i hcond
      rw [ih (r + 1) (by omega) (by omega)]
      split
      · rename_i h3
        rw [if_pos hcond.1]
      · rename_i h3
        rw [if_pos hcond.1]
        omega
    · rename_i hcond
      rw [Decidable.not_and_iff_or_not] at hcond
      rcases hcond with hc | hc
      · rw [if_neg hc]
      · split
        · rename_i h3
          omega
        · rfl

theorem detectPayload_char (L : Nat) (sz : Int) (r : Nat) (hr : r ≤ L) :
    detectPayload L sz r =
      (decide (((if (r : Int) < sz then min sz.toNat L else r : Nat) : Int) = sz),
       if (r : Int) < sz then min sz.toNat L else r) := by
  unfold detectPayload
  rw [detectPayloadAux_char L sz _ r hr (by omega)]

theorem detectPayload_bounds (L : Nat) (sz : Int) (r : Nat) (hr : r ≤ L) :
    r ≤ (detectPayload L sz r).2 ∧ (detectPayload L sz r).2 ≤ L := by
  rw [detectPayload_char L sz r hr]
  constructor
  · show r ≤ (if (r : Int) < sz then min sz.toNat L else r)
    split <;> omega
  · show (if (r : Int) < sz then min sz.toNat L else r) ≤ L
    split <;> omega

theorem detectPayload_true_append (L : Nat) (sz : Int) (r off k : Nat)
    (hr : r ≤ L) (h : detectPayload L sz r = (true, off)) :
    detectPayload (L + k) sz r = (true, off) := by
  rw [detectPayload_char L sz r hr] at h
  rw [detectPayload_char (L + k) sz r (by omega)]
  by_cases hc : (r : Int) < sz
  · rw [if_pos hc] at h ⊢
    rw [Prod.mk.injEq] at h ⊢
    obtain ⟨h1, h2⟩ := h
    simp only [decide_eq_true_eq] at h1 ⊢
    subst h2
    constructor
    · omega
    · omega
  · rw [if_neg hc] at h ⊢
    rw [Prod.mk.injEq] at h ⊢
    obtain ⟨h1, h2⟩ := h
    subst h2
    exact ⟨h1, rfl⟩

theorem detectPayload_false_cases (L : Nat) (sz : Int) (r off : Nat)
    (hr : r ≤ L) (h : detectPayload L sz r = (false, off)) :
    (off = L ∧ (r : Int) < sz ∧ (L : Int) < sz) ∨
    (off = r ∧ ¬((r : Int) < sz) ∧ (r : Int) ≠ sz) := by
  rw [detectPayload_char L sz r hr, Prod.mk.injEq] at h
  obtain ⟨h1, h2⟩ := h
  by_cases hc : (r : Int) < sz
  · rw [if_pos hc] at h1 h2
    left
    subst h2
    simp only [decide_eq_false_iff_not] at h1
    constructor
    · omega
    · constructor
      · exact hc
      · omega
  · rw [if_neg hc] at h1 h2
    right
    subst h2
    simp only [decide_eq_false_iff_not] at h1
    exact ⟨rfl, hc, h1⟩

theorem detectPayload_skip_append (L : Nat) (sz : Int) (r k : Nat)
    (h1 : (r : Int) < sz) (h2 : (L : Int) < sz) (hr : r ≤ L) :
    detectPayload (L + k) sz r = detectPayload (L + k) sz L := by
  rw [detectPayload_char (L + k) sz r (by omega),
      detectPayload_char (L + k) sz L (by omega), if_pos h1, if_pos h2]

theorem detectPayload_stall_self (L : Nat) (sz : Int) (r : Nat)
    (h1 : ¬((r : Int) < sz)) (hr : r ≤ L) :
    detectPayload L sz r = (decide ((r : Int) = sz), r) := by
  rw [detectPayload_char L sz r hr, if_neg h1]

/-! ## Small facts about `extendBuf` and token skipping -/

@[simp]
theorem extendBuf_buffer (s : DecoderState) (e : List Nat) :
    (extendBuf s e).buffer = s.buffer ++ e := rfl

@[simp]
theorem extendBuf_readOffset (s : DecoderState) (e : List Nat) :
    (extendBuf s e).readOffset = s.readOffset := rfl

@[simp]
theorem extendBuf_tag (s : DecoderState) (e : List Nat) :
    (extendBuf s e).tag = s.tag := rfl

@[simp]
theorem extendBuf_nextToken (s : DecoderState) (e : List Nat) :
    (extendBuf s e).nextToken = s.nextToken := rfl

@[simp]
theorem extendBuf_currentPayloadSize (s : DecoderState) (e : List Nat) :
    (extendBuf s e).currentPayloadSize = s.currentPayloadSize := rfl

@[simp]
theorem extendBuf_nil (s : DecoderState) : extendBuf s [] = s := by
  simp [extendBuf]

theorem extendBuf_extendBuf (s : DecoderState) (c d : List Nat) :
    extendBuf (extendBuf s c) d = extendBuf s (c ++ d) := by
  simp [extendBuf]

theorem tagPhase_skip {V : Type} (f : RepeatedFieldInfo V) (s : DecoderState)
    (h : s.nextToken ≠ Token.TAG) : tagPhase f s = .ok s := by
  unfold tagPhase
  rw [if_neg h]

theorem lengthPhase_skip {V : Type} (f : RepeatedFieldInfo V) (s : DecoderState)
    (h : s.nextToken ≠ Token.LENGTH) : lengthPhase f s = s := by
  unfold lengthPhase
  rw [if_neg h]

theorem payloadPhase_skip {V : Type} (f : RepeatedFieldInfo V) (s : DecoderState)
    (h : s.nextToken ≠ Token.PAYLOAD) : payloadPhase f s = .ok (s, []) := by
  unfold payloadPhase
  rw [if_neg h]

/-! ## Step equations for the three phases -/

theorem tagPhase_eq_true {V : Type} (f : RepeatedFieldInfo V) (s : DecoderState)
    (off : Nat) (htok : s.nextToken = Token.TAG)
    (hscan : detectVarint s.buffer s.readOffset = (true, off)) :
    tagPhase f s =
      if tagIsFalsy s.tag then
        .ok { s with
              tag := some (decodeVarint (s.buffer.take off))
              buffer := s.buffer.drop off
              readOffset := 0
              nextToken := tokenAfterTag f }
      else if decodeVarint (s.buffer.take off) ≠ s.tag.getD 0 then
        .error (.tagMismatch (s.tag.getD 0) (decodeVarint (s.buffer.take off)))
      else
        .ok { s with
              buffer := s.buffer.drop off
              readOffset := 0
              nextToken := tokenAfterTag f } := by
  unfold tagPhase
  rw [if_pos htok, hscan]

theorem tagPhase_eq_false {V : Type} (f : RepeatedFieldInfo V) (s : DecoderState)
    (off : Nat) (htok : s.nextToken = Token.TAG)
    (hscan : detectVarint s.buffer s.readOffset = (false, off)) :
    tagPhase f s = .ok { s with readOffset := off } := by
  unfold tagPhase
  rw [if_pos htok, hscan]

theorem lengthPhase_eq_true {V : Type} (f : RepeatedFieldInfo V) (s : DecoderState)
    (off : Nat) (htok : s.nextToken = Token.LENGTH)
    (hscan : detectVarint s.buffer s.readOffset = (true, off)) :
    lengthPhase f s =
      { s with
        currentPayloadSize :=
          if f.isPacked then s.currentPayloadSize
          else decodeVarint (s.buffer.take off)
        buffer := s.buffer.drop off
        readOffset := 0
        nextToken := Token.PAYLOAD } := by
  unfold lengthPhase
  rw [if_pos htok, hscan]

theorem lengthPhase_eq_false {V : Type} (f : RepeatedFieldInfo V) (s : DecoderState)
    (off : Nat) (htok : s.nextToken = Token.LENGTH)
    (hscan : detectVarint s.buffer s.readOffset = (false, off)) :
    lengthPhase f s = { s with readOffset := off } := by
  unfold lengthPhase
  rw [if_pos htok, hscan]

theorem payloadPhase_eq_def {V : Type} (f : RepeatedFieldInfo V)
    (s : DecoderState) :
    payloadPhase f s =
      if s.nextToken = Token.PAYLOAD then
        match payloadScan f s with
        | (true, off) =>
          match f.decode (s.buffer.take off) with
          | none => .error .payload
          | some entry =>
            if f.isPacked = false then
              .ok ({ s with
                     buffer := s.buffer.drop off
                     readOffset := 0
                     currentPayloadSize := 0
                     nextToken := Token.TAG }, [entry])
            else
              .ok ({ s with
                     buffer := s.buffer.drop off
                     readOffset := 0
                     nextToken := Token.PAYLOAD }, [entry])
        | (false, off) => .ok ({ s with readOffset := off }, [])
      else .ok (s, []) := rfl

theorem payloadPhase_eq_true_none {V : Type} (f : RepeatedFieldInfo V)
    (s : DecoderState) (off : Nat) (htok : s.nextToken = Token.PAYLOAD)
    (hscan : payloadScan f s = (true, off))
    (hdec : f.decode (s.buffer.take off) = none) :
    payloadPhase f s = .error .payload := by
  rw [payloadPhase_eq_def, if_pos htok, hscan]
  dsimp only
  rw [hdec]

theorem payloadPhase_eq_true_some {V : Type} (f : RepeatedFieldInfo V)
    (s : DecoderState) (off : Nat) (entry : V)
    (htok : s.nextToken = Token.PAYLOAD)
    (hscan : payloadScan f s = (true, off))
    (hdec : f.decode (s.buffer.take off) = some entry) :
    payloadPhase f s =
      if f.isPacked = false then
        .ok ({ s with
               buffer := s.buffer.drop off
               readOffset := 0
               currentPayloadSize := 0
               nextToken := Token.TAG }, [entry])
      else
        .ok ({ s with
               buffer := s.buffer.drop off
               readOffset := 0
               nextToken := Token.PAYLOAD }, [entry]) := by
  rw [payloadPhase_eq_def, if_pos htok, hscan]
  dsimp only
  rw [hdec]

theorem payloadPhase_eq_false {V : Type} (f : RepeatedFieldInfo V)
    (s : DecoderState) (off : Nat) (htok : s.nextToken = Token.PAYLOAD)
    (hscan : payloadScan f s = (false, off)) :
    payloadPhase f s = .ok ({ s with readOffset := off }, []) := by
  rw [payloadPhase_eq_def, if_pos htok, hscan]

end ProtobufArrayStream

namespace ProtobufArrayStream

/-! ## Congruence in `readOffset` for resumed scans -/

theorem tagPhase_congr {V : Type} (f : RepeatedFieldInfo V) (s : DecoderState)
    (r' : Nat) (htok : s.nextToken = Token.TAG)
    (hscan : detectVarint s.buffer s.readOffset = detectVarint s.buffer r') :
    tagPhase f s = tagPhase f { s with readOffset := r' } := by
  rcases hs2 : detectVarint s.buffer r' with ⟨fnd, off⟩
  have hs1 : detectVarint s.buffer s.readOffset = (fnd, off) := by rw [hscan, hs2]
  cases fnd
  · rw [tagPhase_eq_false f s off htok hs1,
        tagPhase_eq_false f { s with readOffset := r' } off htok hs2]
  · rw [tagPhase_eq_true f s off htok hs1,
        tagPhase_eq_true f { s with readOffset := r' } off htok hs2]

theorem lengthPhase_congr {V : Type} (f : RepeatedFieldInfo V) (s : DecoderState)
    (r' : Nat) (htok : s.nextToken = Token.LENGTH)
    (hscan : detectVarint s.buffer s.readOffset = detectVarint s.buffer r') :
    lengthPhase f s = lengthPhase f { s with readOffset := r' } := by
  rcases hs2 : detectVarint s.buffer r' with ⟨fnd, off⟩
  have hs1 : detectVarint s.buffer s.readOffset = (fnd, off) := by rw [hscan, hs2]
  cases fnd
  · rw [lengthPhase_eq_false f s off htok hs1,
        lengthPhase_eq_false f { s with readOffset := r' } off htok hs2]
  · rw [lengthPhase_eq_true f s off htok hs1,
        lengthPhase_eq_true f { s with readOffset := r' } off htok hs2]

theorem payloadScan_congr {V : Type} (f : RepeatedFieldInfo V) (s : DecoderState)
    (r' : Nat)
    (h1 : detectVarint s.buffer s.readOffset = detectVarint s.buffer r')
    (h2 : detectPayload s.buffer.length s.currentPayloadSize s.readOffset =
          detectPayload s.buffer.length s.currentPayloadSize r') :
    payloadScan f s = payloadScan f { s with readOffset := r' } := by
  unfold payloadScan
  split
  · exact h1
  · exact h2

theorem payloadPhase_congr {V : Type} (f : RepeatedFieldInfo V) (s : DecoderState)
    (r' : Nat) (htok : s.nextToken = Token.PAYLOAD)
    (hscan : payloadScan f s = payloadScan f { s with readOffset := r' }) :
    payloadPhase f s = payloadPhase f { s with readOffset := r' } := by
  rcases hs2 : payloadScan f { s with readOffset := r' } with ⟨fnd, off⟩
  have hs1 : payloadScan f s = (fnd, off) := by rw [hscan, hs2]
  cases fnd
  · rw [payloadPhase_eq_false f s off htok hs1,
        payloadPhase_eq_false f { s with readOffset := r' } off htok hs2]
  · rcases hdec : f.decode (s.buffer.take off) with _ | entry
    · rw [payloadPhase_eq_true_none f s off htok hs1 hdec,
          payloadPhase_eq_true_none f { s with readOffset := r' } off htok hs2 hdec]
    · rw [payloadPhase_eq_true_some f s off entry htok hs1 hdec,
          payloadPhase_eq_true_some f { s with readOffset := r' } off entry htok hs2 hdec]

end ProtobufArrayStream

namespace ProtobufArrayStream

/-! ## Behavior of each phase under buffer extension -/

theorem tagPhase_tri {V : Type} (f : RepeatedFieldInfo V) (s : DecoderState)
    (e : List Nat) (h : s.readOffset ≤ s.buffer.length) :
    (∃ err, tagPhase f s = .error err ∧ tagPhase f (extendBuf s e) = .error err) ∨
    (∃ s₁, tagPhase f s = .ok s₁ ∧ tagPhase f (extendBuf s e) = .ok (extendBuf s₁ e) ∧
       s₁.readOffset ≤ s₁.buffer.length) ∨
    (tagPhase f s = .ok { s with readOffset := s.buffer.length } ∧
     s.nextToken = Token.TAG ∧
     tagPhase f (extendBuf s e) =
       tagPhase f (extendBuf { s with readOffset := s.buffer.length } e)) := by
  by_cases htok : s.nextToken = Token.TAG
  · rcases hscan : detectVarint s.buffer s.readOffset with ⟨fnd, off⟩
    cases fnd
    · right; right
      have hchar := detectVarint_false_char s.buffer _ _ h hscan
      refine ⟨?_, htok, ?_⟩
      · rw [tagPhase_eq_false f s off htok hscan, hchar.1]
      · have happ := detectVarint_false_append s.buffer e _ _ h hscan
        exact tagPhase_congr f (extendBuf s e) s.buffer.length htok happ
    · have hb := detectVarint_true_bounds _ _ _ hscan
      have happ := detectVarint_true_append s.buffer e _ _ hscan
      have htake : (s.buffer ++ e).take off = s.buffer.take off :=
        List.take_append_of_le_length hb.2
      have hdrop : (s.buffer ++ e).drop off = s.buffer.drop off ++ e :=
        List.drop_append_of_le_length hb.2
      have hext : tagPhase f (extendBuf s e) =
          if tagIsFalsy s.tag then
            .ok { extendBuf s e with
                  tag := some (decodeVarint (s.buffer.take off))
                  buffer := s.buffer.drop off ++ e
                  readOffset := 0
                  nextToken := tokenAfterTag f }
          else if decodeVarint (s.buffer.take off) ≠ s.tag.getD 0 then
            .error (.tagMismatch (s.tag.getD 0) (decodeVarint (s.buffer.take off)))
          else
            .ok { extendBuf s e with
                  buffer := s.buffer.drop off ++ e
                  readOffset := 0
                  nextToken := tokenAfterTag f } := by
        rw [tagPhase_eq_true f (extendBuf s e) off htok happ]
        rw [show (extendBuf s e).buffer = s.buffer ++ e from rfl, htake, hdrop]
        rfl
      by_cases hfalsy : tagIsFalsy s.tag
      · right; left
        refine ⟨{ s with
                  tag := some (decodeVarint (s.buffer.take off))
                  buffer := s.buffer.drop off
                  readOffset := 0
                  nextToken := tokenAfterTag f }, ?_, ?_, Nat.zero_le _⟩
        · rw [tagPhase_eq_true f s off htok hscan, if_pos hfalsy]
        · rw [hext, if_pos hfalsy]
          rfl
      · by_cases hmis : decodeVarint (s.buffer.take off) ≠ s.tag.getD 0
        · left
          refine ⟨.tagMismatch (s.tag.getD 0) (decodeVarint (s.buffer.take off)), ?_, ?_⟩
          · rw [tagPhase_eq_true f s off htok hscan, if_neg hfalsy, if_pos hmis]
          · rw [hext, if_neg hfalsy, if_pos hmis]
        · right; left
          refine ⟨{ s with
                    buffer := s.buffer.drop off
                    readOffset := 0
                    nextToken := tokenAfterTag f }, ?_, ?_, Nat.zero_le _⟩
          · rw [tagPhase_eq_true f s off htok hscan, if_neg hfalsy, if_neg hmis]
          · rw [hext, if_neg hfalsy, if_neg hmis]
            rfl
  · right; left
    refine ⟨s, tagPhase_skip f s htok, ?_, h⟩
    rw [tagPhase_skip f (extendBuf s e) htok]

end ProtobufArrayStream

namespace ProtobufArrayStream

theorem lengthPhase_tri {V : Type} (f : RepeatedFieldInfo V) (s : DecoderState)
    (e : List Nat) (h : s.readOffset ≤ s.buffer.length) :
    (∃ s₁, lengthPhase f s = s₁ ∧ lengthPhase f (extendBuf s e) = extendBuf s₁ e ∧
       s₁.readOffset ≤ s₁.buffer.length) ∨
    (lengthPhase f s = { s with readOffset := s.buffer.length } ∧
     s.nextToken = Token.LENGTH ∧
     lengthPhase f (extendBuf s e) =
       lengthPhase f (extendBuf { s with readOffset := s.buffer.length } e)) := by
  by_cases htok : s.nextToken = Token.LENGTH
  · rcases hscan : detectVarint s.buffer s.readOffset with ⟨fnd, off⟩
    cases fnd
    · right
      have hchar := detectVarint_false_char s.buffer _ _ h hscan
      refine ⟨?_, htok, ?_⟩
      · rw [lengthPhase_eq_false f s off htok hscan, hchar.1]
      · have happ := detectVarint_false_append s.buffer e _ _ h hscan
        exact lengthPhase_congr f (extendBuf s e) s.buffer.length htok happ
    · have hb := detectVarint_true_bounds _ _ _ hscan
      have happ := detectVarint_true_append s.buffer e _ _ hscan
      have htake : (s.buffer ++ e).take off = s.buffer.take off :=
        List.take_append_of_le_length hb.2
      have hdrop : (s.buffer ++ e).drop off = s.buffer.drop off ++ e :=
        List.drop_append_of_le_length hb.2
      left
      refine ⟨{ s with
                currentPayloadSize :=
                  if f.isPacked then s.currentPayloadSize
                  else decodeVarint (s.buffer.take off)
                buffer := s.buffer.drop off
                readOffset := 0
                nextToken := Token.PAYLOAD }, ?_, ?_, Nat.zero_le _⟩
      · rw [lengthPhase_eq_true f s off htok hscan]
      · rw [lengthPhase_eq_true f (extendBuf s e) off htok happ]
        rw [show (extendBuf s e).buffer = s.buffer ++ e from rfl, htake, hdrop]
        rfl
  · left
    refine ⟨s, lengthPhase_skip f s htok, ?_, h⟩
    rw [lengthPhase_skip f (extendBuf s e) htok]

end ProtobufArrayStream

namespace ProtobufArrayStream

theorem payloadPhase_tri {V : Type} (f : RepeatedFieldInfo V) (s : DecoderState)
    (e : List Nat) (h : s.readOffset ≤ s.buffer.length) :
    (∃ err, payloadPhase f s = .error err ∧
       payloadPhase f (extendBuf s e) = .error err) ∨
    (∃ s₁ out, payloadPhase f s = .ok (s₁, out) ∧
       payloadPhase f (extendBuf s e) = .ok (extendBuf s₁ e, out) ∧
       s₁.readOffset ≤ s₁.buffer.length) ∨
    (∃ s₁, payloadPhase f s = .ok (s₁, []) ∧
       payloadPhase f (extendBuf s e) = payloadPhase f (extendBuf s₁ e) ∧
       s₁.readOffset ≤ s₁.buffer.length ∧ s₁.nextToken = Token.PAYLOAD ∧
       (s₁.readOffset = s₁.buffer.length ∨
        (payloadPhase f s₁ = .ok (s₁, []) ∧
         payloadPhase f (extendBuf s₁ e) = .ok (extendBuf s₁ e, [])))) := by
  by_cases htok : s.nextToken = Token.PAYLOAD
  · rcases hscan : payloadScan f s with ⟨fnd, off⟩
    cases fnd
    · -- the scan stalled
      by_cases hwt : f.wireType = WIRE_TYPES.VARINT
      · -- varint payload stalls only at the buffer end
        have hdv : detectVarint s.buffer s.readOffset = (false, off) := by
          rw [← hscan]; unfold payloadScan; rw [if_pos hwt]
        have hchar := detectVarint_false_char s.buffer _ _ h hdv
        right; right
        refine ⟨{ s with readOffset := s.buffer.length }, ?_, ?_, le_rfl, htok,
          Or.inl rfl⟩
        · rw [payloadPhase_eq_false f s off htok hscan, hchar.1]
        · have happ := detectVarint_false_append s.buffer e _ _ h hdv
          apply payloadPhase_congr f (extendBuf s e) s.buffer.length htok
          unfold payloadScan
          simp only [if_pos hwt]
          exact happ
      · -- fixed/length-delimited payload
        have hdp : detectPayload s.buffer.length s.currentPayloadSize s.readOffset
            = (false, off) := by
          rw [← hscan]; unfold payloadScan; rw [if_neg hwt]
        rcases detectPayload_false_cases _ _ _ _ h hdp with
          ⟨hoff, hrs, hLs⟩ | ⟨hoff, hrs, hne⟩
        · -- stalled at the buffer end
          right; right
          refine ⟨{ s with readOffset := s.buffer.length }, ?_, ?_, le_rfl, htok,
            Or.inl rfl⟩
          · rw [payloadPhase_eq_false f s off htok hscan, hoff]
          · apply payloadPhase_congr f (extendBuf s e) s.buffer.length htok
            unfold payloadScan
            simp only [if_neg hwt]
            show detectPayload (s.buffer ++ e).length s.currentPayloadSize
                s.readOffset =
              detectPayload (s.buffer ++ e).length s.currentPayloadSize
                s.buffer.length
            rw [List.length_append]
            exact detectPayload_skip_append s.buffer.length s.currentPayloadSize
              s.readOffset e.length hrs hLs h
        · -- the cursor is already at or past the payload size: a no-op
          right; right
          have hself : payloadPhase f s = .ok (s, []) := by
            rw [payloadPhase_eq_false f s off htok hscan, hoff]
          have hselfExt : payloadPhase f (extendBuf s e) = .ok (extendBuf s e, []) := by
            have hscanExt : payloadScan f (extendBuf s e) = (false, s.readOffset) := by
              unfold payloadScan
              rw [if_neg hwt]
              show detectPayload (s.buffer ++ e).length s.currentPayloadSize
                  s.readOffset = (false, s.readOffset)
              rw [detectPayload_stall_self (s.buffer ++ e).length
                  s.currentPayloadSize s.readOffset hrs (by simp; omega)]
              simp [hne]
            rw [payloadPhase_eq_false f (extendBuf s e) s.readOffset htok hscanExt]
            rfl
          exact ⟨s, hself, rfl, h, htok, Or.inr ⟨hself, hselfExt⟩⟩
    · -- the scan completed: a payload span is framed
      have hoffle : off ≤ s.buffer.length := by
        by_cases hwt : f.wireType = WIRE_TYPES.VARINT
        · have hdv : detectVarint s.buffer s.readOffset = (true, off) := by
            rw [← hscan]; unfold payloadScan; rw [if_pos hwt]
          exact (detectVarint_true_bounds _ _ _ hdv).2
        · have hdp : detectPayload s.buffer.length s.currentPayloadSize
              s.readOffset = (true, off) := by
            rw [← hscan]; unfold payloadScan; rw [if_neg hwt]
          have := detectPayload_bounds s.buffer.length s.currentPayloadSize
            s.readOffset h
          rw [hdp] at this
          exact this.2
      have happ : payloadScan f (extendBuf s e) = (true, off) := by
        by_cases hwt : f.wireType = WIRE_TYPES.VARINT
        · have hdv : detectVarint s.buffer s.readOffset = (true, off) := by
            rw [← hscan]; unfold payloadScan; rw [if_pos hwt]
          unfold payloadScan
          rw [if_pos hwt]
          exact detectVarint_true_append s.buffer e _ _ hdv
        · have hdp : detectPayload s.buffer.length s.currentPayloadSize
              s.readOffset = (true, off) := by
            rw [← hscan]; unfold payloadScan; rw [if_neg hwt]
          unfold payloadScan
          rw [if_neg hwt]
          show detectPayload (s.buffer ++ e).length s.currentPayloadSize
              s.readOffset = (true, off)
          rw [List.length_append]
          exact detectPayload_true_append s.buffer.length s.currentPayloadSize
            s.readOffset off e.length h hdp
      have htake : (s.buffer ++ e).take off = s.buffer.take off :=
        List.take_append_of_le_length hoffle
      have hdrop : (s.buffer ++ e).drop off = s.buffer.drop off ++ e :=
        List.drop_append_of_le_length hoffle
      have hdecext : f.decode ((extendBuf s e).buffer.take off) =
          f.decode (s.buffer.take off) := by
        rw [show (extendBuf s e).buffer = s.buffer ++ e from rfl, htake]
      rcases hdec : f.decode (s.buffer.take off) with _ | entry
      · left
        refine ⟨.payload, ?_, ?_⟩
        · exact payloadPhase_eq_true_none f s off htok hscan hdec
        · exact payloadPhase_eq_true_none f (extendBuf s e) off htok happ
            (by rw [hdecext, hdec])
      · right; left
        by_cases hpk : f.isPacked = false
        · refine ⟨{ s with
                    buffer := s.buffer.drop off
                    readOffset := 0
                    currentPayloadSize := 0
                    nextToken := Token.TAG }, [entry], ?_, ?_, Nat.zero_le _⟩
          · rw [payloadPhase_eq_true_some f s off entry htok hscan hdec, if_pos hpk]
          · rw [payloadPhase_eq_true_some f (extendBuf s e) off entry htok happ
                (by rw [hdecext, hdec]), if_pos hpk]
            rw [show (extendBuf s e).buffer = s.buffer ++ e from rfl, hdrop]
            rfl
        · refine ⟨{ s with
                    buffer := s.buffer.drop off
                    readOffset := 0
                    nextToken := Token.PAYLOAD }, [entry], ?_, ?_, Nat.zero_le _⟩
          · rw [payloadPhase_eq_true_some f s off entry htok hscan hdec, if_neg hpk]
          · rw [payloadPhase_eq_true_some f (extendBuf s e) off entry htok happ
                (by rw [hdecext, hdec]), if_neg hpk]
            rw [show (extendBuf s e).buffer = s.buffer ++ e from rfl, hdrop]
            rfl
  · right; left
    refine ⟨s, [], payloadPhase_skip f s htok, ?_, h⟩
    rw [payloadPhase_skip f (extendBuf s e) htok]

end ProtobufArrayStream

namespace ProtobufArrayStream

/-! ## The composite step `decode()` under buffer extension -/

theorem decode_eq_error {V : Type} (f : RepeatedFieldInfo V) (s : DecoderState)
    (err : StreamError) (h : tagPhase f s = .error err) :
    decode f s = .error err := by
  unfold decode
  rw [h]
  rfl

theorem decode_eq_ok {V : Type} (f : RepeatedFieldInfo V) (s : DecoderState)
    (s1 : DecoderState) (h : tagPhase f s = .ok s1) :
    decode f s = payloadPhase f (lengthPhase f s1) := by
  unfold decode
  rw [h]
  rfl

theorem decode_congr {V : Type} (f : RepeatedFieldInfo V) (a b : DecoderState)
    (h : tagPhase f a = tagPhase f b) : decode f a = decode f b := by
  rcases htp : tagPhase f b with err | s1
  · rw [decode_eq_error f a err (by rw [h, htp]), decode_eq_error f b err htp]
  · rw [decode_eq_ok f a s1 (by rw [h, htp]), decode_eq_ok f b s1 htp]

/-- Jumping directly to the PAYLOAD branch when the state is already in the
PAYLOAD token. -/
theorem decode_eq_payload {V : Type} (f : RepeatedFieldInfo V) (s : DecoderState)
    (htok : s.nextToken = Token.PAYLOAD) :
    decode f s = payloadPhase f s := by
  rw [decode_eq_ok f s s (tagPhase_skip f s (by rw [htok]; intro hc; cases hc)),
      lengthPhase_skip f s (by rw [htok]; intro hc; cases hc)]

/-- Jumping directly past the TAG branch when the state is in the LENGTH
token. -/
theorem decode_eq_length {V : Type} (f : RepeatedFieldInfo V) (s : DecoderState)
    (htok : s.nextToken = Token.LENGTH) :
    decode f s = payloadPhase f (lengthPhase f s) :=
  decode_eq_ok f s s (tagPhase_skip f s (by rw [htok]; intro hc; cases hc))

theorem decode_tri {V : Type} (f : RepeatedFieldInfo V) (s : DecoderState)
    (e : List Nat) (h : s.readOffset ≤ s.buffer.length) :
    (∃ err, decode f s = .error err ∧ decode f (extendBuf s e) = .error err) ∨
    (∃ s₁ out, decode f s = .ok (s₁, out) ∧
       decode f (extendBuf s e) = .ok (extendBuf s₁ e, out) ∧
       s₁.readOffset ≤ s₁.buffer.length) ∨
    (∃ s₁, decode f s = .ok (s₁, []) ∧
       decode f (extendBuf s e) = decode f (extendBuf s₁ e) ∧
       s₁.readOffset ≤ s₁.buffer.length ∧
       (s₁.readOffset = s₁.buffer.length ∨
        (decode f s₁ = .ok (s₁, []) ∧
         decode f (extendBuf s₁ e) = .ok (extendBuf s₁ e, [])))) := by
  rcases tagPhase_tri f s e h with
    ⟨err, hts, hte⟩ | ⟨u, hts, hte, hu⟩ | ⟨hts, htokTAG, hte⟩
  · exact Or.inl ⟨err, decode_eq_error f s err hts,
      decode_eq_error f (extendBuf s e) err hte⟩
  · -- TAG acted (or was skipped); continue with LENGTH
    rcases lengthPhase_tri f u e hu with ⟨w, hls, hle, hw⟩ | ⟨hls, htokLEN, hle⟩
    · -- LENGTH acted (or was skipped); continue with PAYLOAD
      rcases payloadPhase_tri f w e hw with
        ⟨err, hps, hpe⟩ | ⟨x, out, hps, hpe, hx⟩ | ⟨x, hps, hpe, hx, hxtok, hxsub⟩
      · refine Or.inl ⟨err, ?_, ?_⟩
        · rw [decode_eq_ok f s u hts, hls, hps]
        · rw [decode_eq_ok f (extendBuf s e) (extendBuf u e) hte, hle, hpe]
      · refine Or.inr (Or.inl ⟨x, out, ?_, ?_, hx⟩)
        · rw [decode_eq_ok f s u hts, hls, hps]
        · rw [decode_eq_ok f (extendBuf s e) (extendBuf u e) hte, hle, hpe]
      · refine Or.inr (Or.inr ⟨x, ?_, ?_, hx, ?_⟩)
        · rw [decode_eq_ok f s u hts, hls, hps]
        · rw [decode_eq_ok f (extendBuf s e) (extendBuf u e) hte, hle, hpe,
              decode_eq_payload f (extendBuf x e) hxtok]
        · rcases hxsub with hfin | ⟨hspin1, hspin2⟩
          · exact Or.inl hfin
          · refine Or.inr ⟨?_, ?_⟩
            · rw [decode_eq_payload f x hxtok, hspin1]
            · rw [decode_eq_payload f (extendBuf x e) hxtok, hspin2]
    · -- LENGTH stalled: the step ends there
      refine Or.inr (Or.inr ⟨{ u with readOffset := u.buffer.length }, ?_, ?_,
        le_rfl, Or.inl rfl⟩)
      · rw [decode_eq_ok f s u hts, hls,
            payloadPhase_skip f { u with readOffset := u.buffer.length }
              (by show u.nextToken ≠ Token.PAYLOAD
                  rw [htokLEN]; intro hc; cases hc)]
      · rw [decode_eq_ok f (extendBuf s e) (extendBuf u e) hte, hle,
            decode_eq_length f (extendBuf { u with readOffset := u.buffer.length } e)
              htokLEN]
  · -- TAG stalled: the step ends there
    refine Or.inr (Or.inr ⟨{ s with readOffset := s.buffer.length }, ?_, ?_,
      le_rfl, Or.inl rfl⟩)
    · rw [decode_eq_ok f s { s with readOffset := s.buffer.length } hts,
          lengthPhase_skip f { s with readOffset := s.buffer.length }
            (by show s.nextToken ≠ Token.LENGTH
                rw [htokTAG]; intro hc; cases hc),
          payloadPhase_skip f { s with readOffset := s.buffer.length }
            (by show s.nextToken ≠ Token.PAYLOAD
                rw [htokTAG]; intro hc; cases hc)]
    · exact decode_congr f (extendBuf s e)
        (extendBuf { s with readOffset := s.buffer.length } e) hte

end ProtobufArrayStream

namespace ProtobufArrayStream

/-! ## The decode loop -/

theorem runLoop_exit {V : Type} (f : RepeatedFieldInfo V) (fuel : Nat)
    (s : DecoderState) (acc : List V) (h : s.buffer.length ≤ s.readOffset) :
    runLoop f fuel s acc = some (.ok s acc) := by
  unfold runLoop
  rw [if_neg (by omega)]

theorem runLoop_zero_lt {V : Type} (f : RepeatedFieldInfo V) (s : DecoderState)
    (acc : List V) (h : s.readOffset < s.buffer.length) :
    runLoop f 0 s acc = none := by
  unfold runLoop
  rw [if_pos h]

theorem runLoop_succ_lt {V : Type} (f : RepeatedFieldInfo V) (fuel : Nat)
    (s : DecoderState) (acc : List V) (h : s.readOffset < s.buffer.length) :
    runLoop f (fuel + 1) s acc =
      match decode f s with
      | .error e => some (.fail acc e)
      | .ok (s', out) => runLoop f fuel s' (acc ++ out) := by
  have heq : runLoop f (fuel + 1) s acc =
      if s.readOffset < s.buffer.length then
        match decode f s with
        | .error e => some (.fail acc e)
        | .ok (s', out) => runLoop f fuel s' (acc ++ out)
      else some (.ok s acc) := rfl
  rw [heq, if_pos h]

theorem runLoop_mono {V : Type} (f : RepeatedFieldInfo V) :
    ∀ fuel k (s : DecoderState) (acc : List V) (R : LoopOutcome V),
      runLoop f fuel s acc = some R → runLoop f (fuel + k) s acc = some R := by
  intro fuel
  induction fuel with
  | zero =>
    intro k s acc R h
    by_cases hrl : s.readOffset < s.buffer.length
    · rw [runLoop_zero_lt f s acc hrl] at h
      cases h
    · rw [runLoop_exit f _ s acc (by omega)] at h ⊢
      exact h
  | succ fuel ih =>
    intro k s acc R h
    by_cases hrl : s.readOffset < s.buffer.length
    · rw [runLoop_succ_lt f fuel s acc hrl] at h
      rw [show fuel + 1 + k = (fuel + k) + 1 from by omega,
          runLoop_succ_lt f (fuel + k) s acc hrl]
      rcases hd : decode f s with err | ⟨s', out⟩
      · rw [hd] at h
        exact h
      · rw [hd] at h
        exact ih k s' (acc ++ out) R h
    · rw [runLoop_exit f _ s acc (by omega)] at h ⊢
      exact h

theorem LoopTerm_det {V : Type} (f : RepeatedFieldInfo V) (s : DecoderState)
    (acc : List V) (R₁ R₂ : LoopOutcome V) (h₁ : LoopTerm f s acc R₁)
    (h₂ : LoopTerm f s acc R₂) : R₁ = R₂ := by
  obtain ⟨fuel₁, h₁⟩ := h₁
  obtain ⟨fuel₂, h₂⟩ := h₂
  have e₁ := runLoop_mono f fuel₁ fuel₂ s acc R₁ h₁
  have e₂ := runLoop_mono f fuel₂ fuel₁ s acc R₂ h₂
  rw [show fuel₂ + fuel₁ = fuel₁ + fuel₂ from by omega] at e₂
  rw [e₁] at e₂
  exact Option.some.inj e₂

theorem LoopTerm_exit {V : Type} (f : RepeatedFieldInfo V) (s : DecoderState)
    (acc : List V) (R : LoopOutcome V) (h : s.buffer.length ≤ s.readOffset) :
    LoopTerm f s acc R ↔ R = .ok s acc := by
  constructor
  · rintro ⟨fuel, hrun⟩
    rw [runLoop_exit f fuel s acc h] at hrun
    exact (Option.some.inj hrun).symm
  · rintro rfl
    exact ⟨0, runLoop_exit f 0 s acc h⟩

theorem LoopTerm_step {V : Type} (f : RepeatedFieldInfo V) (s : DecoderState)
    (s₁ : DecoderState) (o acc : List V) (R : LoopOutcome V)
    (hrl : s.readOffset < s.buffer.length)
    (hd : decode f s = .ok (s₁, o)) :
    LoopTerm f s acc R ↔ LoopTerm f s₁ (acc ++ o) R := by
  constructor
  · rintro ⟨fuel, hrun⟩
    cases fuel with
    | zero => rw [runLoop_zero_lt f s acc hrl] at hrun; cases hrun
    | succ fuel =>
      rw [runLoop_succ_lt f fuel s acc hrl, hd] at hrun
      exact ⟨fuel, hrun⟩
  · rintro ⟨fuel, hrun⟩
    refine ⟨fuel + 1, ?_⟩
    rw [runLoop_succ_lt f fuel s acc hrl, hd]
    exact hrun

theorem LoopTerm_err {V : Type} (f : RepeatedFieldInfo V) (s : DecoderState)
    (acc : List V) (err : StreamError) (R : LoopOutcome V)
    (hrl : s.readOffset < s.buffer.length)
    (hd : decode f s = .error err) :
    LoopTerm f s acc R ↔ R = .fail acc err := by
  constructor
  · rintro ⟨fuel, hrun⟩
    cases fuel with
    | zero => rw [runLoop_zero_lt f s acc hrl] at hrun; cases hrun
    | succ fuel =>
      rw [runLoop_succ_lt f fuel s acc hrl, hd] at hrun
      exact (Option.some.inj hrun).symm
  · rintro rfl
    refine ⟨1, ?_⟩
    rw [runLoop_succ_lt f 0 s acc hrl, hd]

theorem LoopTerm_congr_step {V : Type} (f : RepeatedFieldInfo V)
    (a b : DecoderState) (acc : List V) (R : LoopOutcome V)
    (ha : a.readOffset < a.buffer.length) (hb : b.readOffset < b.buffer.length)
    (hd : decode f a = decode f b) :
    LoopTerm f a acc R ↔ LoopTerm f b acc R := by
  rcases hdb : decode f b with err | ⟨u, o⟩
  · rw [LoopTerm_err f a acc err R ha (by rw [hd, hdb]),
        LoopTerm_err f b acc err R hb hdb]
  · rw [LoopTerm_step f a u o acc R ha (by rw [hd, hdb]),
        LoopTerm_step f b u o acc R hb hdb]

theorem runLoop_spin {V : Type} (f : RepeatedFieldInfo V) (s : DecoderState)
    (hd : decode f s = .ok (s, []))
    (hrl : s.readOffset < s.buffer.length) :
    ∀ fuel acc, runLoop f fuel s acc = none := by
  intro fuel
  induction fuel with
  | zero => intro acc; exact runLoop_zero_lt f s acc hrl
  | succ fuel ih =>
    intro acc
    rw [runLoop_succ_lt f fuel s acc hrl, hd]
    show runLoop f fuel s (acc ++ []) = none
    rw [List.append_nil]
    exact ih acc

end ProtobufArrayStream

namespace ProtobufArrayStream

theorem runLoop_ok_rL {V : Type} (f : RepeatedFieldInfo V) :
    ∀ fuel (s : DecoderState) (acc out : List V) (s' : DecoderState),
      runLoop f fuel s acc = some (.ok s' out) →
      s'.buffer.length ≤ s'.readOffset := by
  intro fuel
  induction fuel with
  | zero =>
    intro s acc out s' h
    by_cases hrl : s.readOffset < s.buffer.length
    · rw [runLoop_zero_lt f s acc hrl] at h
      cases h
    · rw [runLoop_exit f 0 s acc (by omega)] at h
      have hinj := Option.some.inj h
      cases hinj
      omega
  | succ fuel ih =>
    intro s acc out s' h
    by_cases hrl : s.readOffset < s.buffer.length
    · rw [runLoop_succ_lt f fuel s acc hrl] at h
      rcases hd : decode f s with err | ⟨u, o⟩
      · rw [hd] at h
        cases h
      · rw [hd] at h
        exact ih u (acc ++ o) out s' h
    · rw [runLoop_exit f _ s acc (by omega)] at h
      have := Option.some.inj h
      cases this
      omega

/-- If the loop terminates normally from `s`, then extending the buffer and
running is the same as running the continuation from the extended stalled
state. -/
theorem loop_extend_ok {V : Type} (f : RepeatedFieldInfo V) :
    ∀ fuel (s : DecoderState) (acc out : List V) (s' : DecoderState),
      s.readOffset ≤ s.buffer.length →
      runLoop f fuel s acc = some (.ok s' out) →
      ∀ (e : List Nat) (R : LoopOutcome V),
        LoopTerm f (extendBuf s e) acc R ↔ LoopTerm f (extendBuf s' e) out R := by
  intro fuel
  induction fuel with
  | zero =>
    intro s acc out s' h hrun e R
    by_cases hrl : s.readOffset < s.buffer.length
    · rw [runLoop_zero_lt f s acc hrl] at hrun
      cases hrun
    · rw [runLoop_exit f 0 s acc (by omega)] at hrun
      have := Option.some.inj hrun
      cases this
      rfl
  | succ fuel ih =>
    intro s acc out s' h hrun e R
    by_cases hrl : s.readOffset < s.buffer.length
    · rw [runLoop_succ_lt f fuel s acc hrl] at hrun
      rcases decode_tri f s e h with
        ⟨err, hds, hde⟩ | ⟨s₁, o, hds, hde, h₁⟩ | ⟨s₁, hds, hde, h₁, hsub⟩
      · rw [hds] at hrun
        cases hrun
      · rw [hds] at hrun
        have hext : (extendBuf s e).readOffset < (extendBuf s e).buffer.length := by
          simp only [extendBuf_readOffset, extendBuf_buffer, List.length_append]
          omega
        exact (LoopTerm_step f (extendBuf s e) (extendBuf s₁ e) o acc R hext
          hde).trans (ih s₁ (acc ++ o) out s' h₁ hrun e R)
      · rw [hds] at hrun
        have hrun2 : runLoop f fuel s₁ (acc ++ []) = some (.ok s' out) := hrun
        rw [List.append_nil] at hrun2
        have hiff2 := ih s₁ acc out s' h₁ hrun2 e R
        rcases List.eq_nil_or_concat e with rfl | hne
        · rw [extendBuf_nil, extendBuf_nil] at hiff2 ⊢
          have hstep := LoopTerm_step f s s₁ [] acc R hrl hds
          rw [List.append_nil] at hstep
          exact hstep.trans hiff2
        · have hel : 0 < e.length := by
            obtain ⟨l, a, rfl⟩ := hne
            simp
          have hext1 : (extendBuf s e).readOffset < (extendBuf s e).buffer.length := by
            simp only [extendBuf_readOffset, extendBuf_buffer, List.length_append]
            omega
          have hext2 : (extendBuf s₁ e).readOffset < (extendBuf s₁ e).buffer.length := by
            simp only [extendBuf_readOffset, extendBuf_buffer, List.length_append]
            omega
          exact (LoopTerm_congr_step f (extendBuf s e) (extendBuf s₁ e) acc R
            hext1 hext2 hde).trans hiff2
    · rw [runLoop_exit f _ s acc (by omega)] at hrun
      have := Option.some.inj hrun
      cases this
      rfl

/-- A failing run keeps failing the same way after any buffer extension. -/
theorem loop_extend_fail {V : Type} (f : RepeatedFieldInfo V) :
    ∀ fuel (s : DecoderState) (acc out : List V) (err : StreamError),
      s.readOffset ≤ s.buffer.length →
      runLoop f fuel s acc = some (.fail out err) →
      ∀ e : List Nat, LoopTerm f (extendBuf s e) acc (.fail out err) := by
  intro fuel
  induction fuel with
  | zero =>
    intro s acc out err h hrun e
    by_cases hrl : s.readOffset < s.buffer.length
    · rw [runLoop_zero_lt f s acc hrl] at hrun
      cases hrun
    · rw [runLoop_exit f 0 s acc (by omega)] at hrun
      cases Option.some.inj hrun
  | succ fuel ih =>
    intro s acc out err h hrun e
    by_cases hrl : s.readOffset < s.buffer.length
    · rw [runLoop_succ_lt f fuel s acc hrl] at hrun
      rcases decode_tri f s e h with
        ⟨err', hds, hde⟩ | ⟨s₁, o, hds, hde, h₁⟩ | ⟨s₁, hds, hde, h₁, hsub⟩
      · rw [hds] at hrun
        have hinj := Option.some.inj hrun
        cases hinj
        have hext : (extendBuf s e).readOffset < (extendBuf s e).buffer.length := by
          simp only [extendBuf_readOffset, extendBuf_buffer, List.length_append]
          omega
        exact (LoopTerm_err f (extendBuf s e) acc _ _ hext (by rw [hde])).mpr rfl
      · rw [hds] at hrun
        have hext : (extendBuf s e).readOffset < (extendBuf s e).buffer.length := by
          simp only [extendBuf_readOffset, extendBuf_buffer, List.length_append]
          omega
        exact (LoopTerm_step f (extendBuf s e) (extendBuf s₁ e) o acc
          (.fail out err) hext hde).mpr (ih s₁ (acc ++ o) out err h₁ hrun e)
      · rw [hds] at hrun
        have hrun2 : runLoop f fuel s₁ (acc ++ []) = some (.fail out err) := hrun
        rw [List.append_nil] at hrun2
        rcases hsub with hfin | ⟨hsp1, hsp2⟩
        · rw [runLoop_exit f fuel s₁ acc (by omega)] at hrun2
          cases Option.some.inj hrun2
        · by_cases hrl1 : s₁.readOffset < s₁.buffer.length
          · rw [runLoop_spin f s₁ hsp1 hrl1 fuel acc] at hrun2
            cases hrun2
          · rw [runLoop_exit f fuel s₁ acc (by omega)] at hrun2
            cases Option.some.inj hrun2
    · rw [runLoop_exit f _ s acc (by omega)] at hrun
      cases Option.some.inj hrun

end ProtobufArrayStream

namespace ProtobufArrayStream

/-- If the loop terminates on an extended buffer, it terminates (with some
outcome) on the unextended one. -/
theorem loop_small_term {V : Type} (f : RepeatedFieldInfo V) (e : List Nat) :
    ∀ fuel (s : DecoderState) (acc : List V) (R : LoopOutcome V),
      s.readOffset ≤ s.buffer.length →
      runLoop f fuel (extendBuf s e) acc = some R →
      ∃ R', LoopTerm f s acc R' := by
  intro fuel
  induction fuel with
  | zero =>
    intro s acc R h hrun
    by_cases hrl : s.readOffset < s.buffer.length
    · rw [runLoop_zero_lt f (extendBuf s e) acc
        (by simp only [extendBuf_readOffset, extendBuf_buffer,
              List.length_append]
            omega)] at hrun
      cases hrun
    · exact ⟨.ok s acc, ⟨0, runLoop_exit f 0 s acc (by omega)⟩⟩
  | succ fuel ih =>
    intro s acc R h hrun
    by_cases hrl : s.readOffset < s.buffer.length
    · have hext : (extendBuf s e).readOffset < (extendBuf s e).buffer.length := by
        simp only [extendBuf_readOffset, extendBuf_buffer, List.length_append]
        omega
      rw [runLoop_succ_lt f fuel (extendBuf s e) acc hext] at hrun
      rcases decode_tri f s e h with
        ⟨err, hds, hde⟩ | ⟨s₁, o, hds, hde, h₁⟩ | ⟨s₁, hds, hde, h₁, hsub⟩
      · refine ⟨.fail acc err, ?_⟩
        exact (LoopTerm_err f s acc err (.fail acc err) hrl hds).mpr rfl
      · rw [hde] at hrun
        obtain ⟨R', hR'⟩ := ih s₁ (acc ++ o) R h₁ hrun
        exact ⟨R', (LoopTerm_step f s s₁ o acc R' hrl hds).mpr hR'⟩
      · by_cases hrl1 : s₁.readOffset < s₁.buffer.length
        · rcases hsub with hfin | ⟨hsp1, hsp2⟩
          · omega
          · have hdse : decode f (extendBuf s e) = .ok (extendBuf s₁ e, []) := by
              rw [hde, hsp2]
            rw [hdse] at hrun
            have hrun2 : runLoop f fuel (extendBuf s₁ e) (acc ++ []) = some R :=
              hrun
            rw [List.append_nil] at hrun2
            have hspin := runLoop_spin f (extendBuf s₁ e) hsp2
              (by simp only [extendBuf_readOffset, extendBuf_buffer,
                    List.length_append]
                  omega) fuel acc
            rw [hspin] at hrun2
            cases hrun2
        · refine ⟨.ok s₁ acc, ?_⟩
          refine (LoopTerm_step f s s₁ [] acc (.ok s₁ acc) hrl hds).mpr ?_
          rw [List.append_nil]
          exact (LoopTerm_exit f s₁ acc (.ok s₁ acc) (by omega)).mpr rfl
    · exact ⟨.ok s acc, ⟨0, runLoop_exit f 0 s acc (by omega)⟩⟩

end ProtobufArrayStream

namespace ProtobufArrayStream

/-! ## Chunk feeding -/

theorem decode_preserve {V : Type} (f : RepeatedFieldInfo V) (s : DecoderState)
    (s₁ : DecoderState) (o : List V) (h : s.readOffset ≤ s.buffer.length)
    (hd : decode f s = .ok (s₁, o)) :
    s₁.readOffset ≤ s₁.buffer.length := by
  rcases decode_tri f s [] h with
    ⟨err, hds, _⟩ | ⟨s₁', o', hds, _, h₁⟩ | ⟨s₁', hds, _, h₁, _⟩
  · rw [hd] at hds
    cases hds
  · rw [hd] at hds
    have := Except.ok.inj hds
    cases this
    exact h₁
  · rw [hd] at hds
    have := Except.ok.inj hds
    cases this
    exact h₁

theorem runLoop_le {V : Type} (f : RepeatedFieldInfo V) :
    ∀ fuel (s : DecoderState) (acc out : List V) (s' : DecoderState),
      s.readOffset ≤ s.buffer.length →
      runLoop f fuel s acc = some (.ok s' out) →
      s'.readOffset ≤ s'.buffer.length := by
  intro fuel
  induction fuel with
  | zero =>
    intro s acc out s' h hrun
    by_cases hrl : s.readOffset < s.buffer.length
    · rw [runLoop_zero_lt f s acc hrl] at hrun
      cases hrun
    · rw [runLoop_exit f 0 s acc (by omega)] at hrun
      have hinj := Option.some.inj hrun
      cases hinj
      exact h
  | succ fuel ih =>
    intro s acc out s' h hrun
    by_cases hrl : s.readOffset < s.buffer.length
    · rw [runLoop_succ_lt f fuel s acc hrl] at hrun
      rcases hd : decode f s with err | ⟨u, o⟩
      · rw [hd] at hrun
        cases hrun
      · rw [hd] at hrun
        exact ih u (acc ++ o) out s' (decode_preserve f s u o h hd) hrun
    · rw [runLoop_exit f _ s acc (by omega)] at hrun
      have hinj := Option.some.inj hrun
      cases hinj
      exact h

theorem feedChunks_nil {V : Type} (f : RepeatedFieldInfo V) (fuel : Nat)
    (s : DecoderState) (acc : List V) :
    feedChunks f fuel s acc [] = some (.ok s acc) := rfl

theorem feedChunks_cons {V : Type} (f : RepeatedFieldInfo V) (fuel : Nat)
    (s : DecoderState) (acc : List V) (c : List Nat) (cs : List (List Nat)) :
    feedChunks f fuel s acc (c :: cs) =
      match runLoop f fuel (extendBuf s c) acc with
      | none => none
      | some (.ok s' acc') => feedChunks f fuel s' acc' cs
      | some (.fail acc' e) => some (.fail acc' e) := rfl

theorem feed_mono {V : Type} (f : RepeatedFieldInfo V) :
    ∀ (cs : List (List Nat)) fuel k (s : DecoderState) (acc : List V)
      (R : LoopOutcome V),
      feedChunks f fuel s acc cs = some R →
      feedChunks f (fuel + k) s acc cs = some R := by
  intro cs
  induction cs with
  | nil =>
    intro fuel k s acc R h
    rw [feedChunks_nil] at h
    rw [feedChunks_nil]
    exact h
  | cons c cs ih =>
    intro fuel k s acc R h
    rw [feedChunks_cons] at h
    rw [feedChunks_cons]
    rcases hr : runLoop f fuel (extendBuf s c) acc with _ | R0
    · rw [hr] at h
      cases h
    · rw [hr] at h
      rw [runLoop_mono f fuel k (extendBuf s c) acc R0 hr]
      cases R0 with
      | ok s' acc' => exact ih fuel k s' acc' R h
      | fail acc' e => exact h

theorem FeedTerm_nil {V : Type} (f : RepeatedFieldInfo V) (s : DecoderState)
    (acc : List V) (o : List V × Option StreamError) :
    FeedTermFrom f s acc [] o ↔ o = (acc, none) := by
  constructor
  · rintro ⟨fuel, h⟩
    rw [feedChunks_nil] at h
    simp [outcomeOf] at h
    exact h.symm
  · rintro rfl
    exact ⟨0, by rw [feedChunks_nil]; rfl⟩

theorem FeedTerm_cons_iff {V : Type} (f : RepeatedFieldInfo V)
    (s : DecoderState) (acc : List V) (c : List Nat) (cs : List (List Nat))
    (o : List V × Option StreamError) :
    FeedTermFrom f s acc (c :: cs) o ↔
      (∃ s' acc', LoopTerm f (extendBuf s c) acc (.ok s' acc') ∧
         FeedTermFrom f s' acc' cs o) ∨
      (∃ acc' err, LoopTerm f (extendBuf s c) acc (.fail acc' err) ∧
         o = (acc', some err)) := by
  constructor
  · rintro ⟨fuel, h⟩
    rw [feedChunks_cons] at h
    rcases hr : runLoop f fuel (extendBuf s c) acc with _ | R0
    · rw [hr] at h
      cases h
    · rw [hr] at h
      cases R0 with
      | ok s' acc' =>
        exact Or.inl ⟨s', acc', ⟨fuel, hr⟩, ⟨fuel, h⟩⟩
      | fail acc' e =>
        refine Or.inr ⟨acc', e, ⟨fuel, hr⟩, ?_⟩
        simp [outcomeOf] at h
        exact h.symm
  · rintro (⟨s', acc', ⟨f1, h1⟩, ⟨f2, h2⟩⟩ | ⟨acc', err, ⟨f1, h1⟩, rfl⟩)
    · refine ⟨f1 + f2, ?_⟩
      rw [feedChunks_cons, runLoop_mono f f1 f2 (extendBuf s c) acc _ h1]
      obtain ⟨R2, hR2, hout⟩ := Option.map_eq_some'.mp h2
      have hR2' := feed_mono f cs f2 f1 s' acc' R2 hR2
      rw [show f2 + f1 = f1 + f2 from by omega] at hR2'
      show (feedChunks f (f1 + f2) s' acc' cs).map outcomeOf = some o
      rw [hR2']
      simp [hout]
    · refine ⟨f1, ?_⟩
      rw [feedChunks_cons, h1]
      rfl

theorem feed_single_iff {V : Type} (f : RepeatedFieldInfo V) (s : DecoderState)
    (acc : List V) (d : List Nat) (o : List V × Option StreamError) :
    FeedTermFrom f s acc [d] o ↔
      (∃ s' acc', LoopTerm f (extendBuf s d) acc (.ok s' acc') ∧
         o = (acc', none)) ∨
      (∃ acc' err, LoopTerm f (extendBuf s d) acc (.fail acc' err) ∧
         o = (acc', some err)) := by
  rw [FeedTerm_cons_iff]
  constructor
  · rintro (⟨s', acc', hloop, hrest⟩ | h)
    · rw [FeedTerm_nil] at hrest
      exact Or.inl ⟨s', acc', hloop, hrest⟩
    · exact Or.inr h
  · rintro (⟨s', acc', hloop, ho⟩ | h)
    · refine Or.inl ⟨s', acc', hloop, ?_⟩
      rw [FeedTerm_nil]
      exact ho
    · exact Or.inr h

end ProtobufArrayStream

namespace ProtobufArrayStream

/-- Chunked delivery and single-chunk delivery of the same bytes terminate
with the same observable outcomes, from any inter-chunk boundary state. -/
theorem feed_flatten {V : Type} (f : RepeatedFieldInfo V) :
    ∀ (cs : List (List Nat)) (s : DecoderState) (acc : List V)
      (o : List V × Option StreamError),
      s.readOffset = s.buffer.length →
      (FeedTermFrom f s acc cs o ↔ FeedTermFrom f s acc [cs.flatten] o) := by
  intro cs
  induction cs with
  | nil =>
    intro s acc o hb
    rw [show (([] : List (List Nat)).flatten) = [] from rfl]
    rw [FeedTerm_nil, feed_single_iff]
    constructor
    · rintro rfl
      left
      refine ⟨s, acc, ?_, rfl⟩
      rw [extendBuf_nil]
      exact (LoopTerm_exit f s acc _ (by omega)).mpr rfl
    · rintro (⟨s', acc', hloop, ho⟩ | ⟨acc', err, hloop, ho⟩)
      · rw [extendBuf_nil] at hloop
        have hd := (LoopTerm_exit f s acc _ (by omega)).mp hloop
        cases hd
        exact ho
      · rw [extendBuf_nil] at hloop
        have hd := (LoopTerm_exit f s acc _ (by omega)).mp hloop
        cases hd
  | cons c cs ih =>
    intro s acc o hb
    rw [show ((c :: cs).flatten) = c ++ cs.flatten from rfl]
    rw [FeedTerm_cons_iff, feed_single_iff]
    have hsc : (extendBuf s c).readOffset ≤ (extendBuf s c).buffer.length := by
      simp only [extendBuf_readOffset, extendBuf_buffer, List.length_append]
      omega
    constructor
    · rintro (⟨s', acc', hloop, hrest⟩ | ⟨acc', err, hloop, ho⟩)
      · obtain ⟨f1, h1⟩ := hloop
        have hle := runLoop_le f f1 _ acc acc' s' hsc h1
        have hge := runLoop_ok_rL f f1 _ acc acc' s' h1
        have hb' : s'.readOffset = s'.buffer.length := by omega
        have hsingle := (ih s' acc' o hb').mp hrest
        rw [feed_single_iff] at hsingle
        have hiff := loop_extend_ok f f1 (extendBuf s c) acc acc' s' hsc h1
          cs.flatten
        rcases hsingle with ⟨s'', acc'', hloop2, ho⟩ | ⟨acc'', err, hloop2, ho⟩
        · left
          refine ⟨s'', acc'', ?_, ho⟩
          rw [← extendBuf_extendBuf]
          exact (hiff _).mpr hloop2
        · right
          refine ⟨acc'', err, ?_, ho⟩
          rw [← extendBuf_extendBuf]
          exact (hiff _).mpr hloop2
      · right
        refine ⟨acc', err, ?_, ho⟩
        obtain ⟨f1, h1⟩ := hloop
        rw [← extendBuf_extendBuf]
        exact loop_extend_fail f f1 (extendBuf s c) acc acc' err hsc h1 cs.flatten
    · rintro (⟨s'', acc'', hloop, ho⟩ | ⟨acc'', err, hloop, ho⟩)
      · rw [← extendBuf_extendBuf] at hloop
        obtain ⟨F, hF⟩ := hloop
        obtain ⟨R', hR'⟩ := loop_small_term f cs.flatten F (extendBuf s c) acc _
          hsc hF
        cases R' with
        | ok s₀ a₀ =>
          obtain ⟨f1, h1⟩ := hR'
          have hle := runLoop_le f f1 _ acc a₀ s₀ hsc h1
          have hge := runLoop_ok_rL f f1 _ acc a₀ s₀ h1
          have hb' : s₀.readOffset = s₀.buffer.length := by omega
          have hiff := loop_extend_ok f f1 (extendBuf s c) acc a₀ s₀ hsc h1
            cs.flatten
          have hloop2 := (hiff _).mp ⟨F, hF⟩
          left
          refine ⟨s₀, a₀, ⟨f1, h1⟩, ?_⟩
          apply (ih s₀ a₀ o hb').mpr
          rw [feed_single_iff]
          exact Or.inl ⟨s'', acc'', hloop2, ho⟩
        | fail a₀ err₀ =>
          obtain ⟨f1, h1⟩ := hR'
          have hfail := loop_extend_fail f f1 (extendBuf s c) acc a₀ err₀ hsc h1
            cs.flatten
          have hdet := LoopTerm_det f (extendBuf (extendBuf s c) cs.flatten) acc
            _ _ ⟨F, hF⟩ hfail
          cases hdet
      · rw [← extendBuf_extendBuf] at hloop
        obtain ⟨F, hF⟩ := hloop
        obtain ⟨R', hR'⟩ := loop_small_term f cs.flatten F (extendBuf s c) acc _
          hsc hF
        cases R' with
        | ok s₀ a₀ =>
          obtain ⟨f1, h1⟩ := hR'
          have hle := runLoop_le f f1 _ acc a₀ s₀ hsc h1
          have hge := runLoop_ok_rL f f1 _ acc a₀ s₀ h1
          have hb' : s₀.readOffset = s₀.buffer.length := by omega
          have hiff := loop_extend_ok f f1 (extendBuf s c) acc a₀ s₀ hsc h1
            cs.flatten
          have hloop2 := (hiff _).mp ⟨F, hF⟩
          left
          refine ⟨s₀, a₀, ⟨f1, h1⟩, ?_⟩
          apply (ih s₀ a₀ o hb').mpr
          rw [feed_single_iff]
          exact Or.inr ⟨acc'', err, hloop2, ho⟩
        | fail a₀ err₀ =>
          obtain ⟨f1, h1⟩ := hR'
          have hfail := loop_extend_fail f f1 (extendBuf s c) acc a₀ err₀ hsc h1
            cs.flatten
          have hdet := LoopTerm_det f (extendBuf (extendBuf s c) cs.flatten) acc
            _ _ ⟨F, hF⟩ hfail
          cases hdet
          right
          exact ⟨acc'', err, ⟨f1, h1⟩, ho⟩

end ProtobufArrayStream

namespace ProtobufArrayStream

/-! ## Tag preservation -/

theorem tagPhase_ok_tag {V : Type} (f : RepeatedFieldInfo V) (s : DecoderState)
    (t : Int) (h : s.tag = some t) (ht : t ≠ 0) (s₁ : DecoderState)
    (hok : tagPhase f s = .ok s₁) : s₁.tag = some t := by
  unfold tagPhase at hok
  have hf : tagIsFalsy s.tag = false := by simp [tagIsFalsy, h, ht]
  split at hok
  · split at hok
    · rw [hf] at hok
      simp only [Bool.false_eq_true, if_false] at hok
      split at hok
      · exact absurd hok (by simp)
      · cases hok
        simpa using h
    · cases hok
      simpa using h
  · cases hok
    simpa using h

theorem lengthPhase_tag {V : Type} (f : RepeatedFieldInfo V) (s : DecoderState) :
    (lengthPhase f s).tag = s.tag := by
  unfold lengthPhase
  split
  · split
    · rfl
    · rfl
  · rfl

theorem payloadPhase_ok_tag {V : Type} (f : RepeatedFieldInfo V)
    (s : DecoderState) (s₁ : DecoderState) (out : List V)
    (hok : payloadPhase f s = .ok (s₁, out)) : s₁.tag = s.tag := by
  unfold payloadPhase at hok
  split at hok
  · split at hok
    · split at hok
      · exact absurd hok (by simp)
      · split at hok
        · cases hok; rfl
        · cases hok; rfl
    · cases hok; rfl
  · cases hok; rfl

theorem decode_ok_tag {V : Type} (f : RepeatedFieldInfo V) (s : DecoderState)
    (t : Int) (h : s.tag = some t) (ht : t ≠ 0) (s₁ : DecoderState)
    (out : List V) (hok : decode f s = .ok (s₁, out)) : s₁.tag = some t := by
  rcases htp : tagPhase f s with err | u
  · rw [decode_eq_error f s err htp] at hok
    cases hok
  · rw [decode_eq_ok f s u htp] at hok
    have h1 := tagPhase_ok_tag f s t h ht u htp
    have h2 := lengthPhase_tag f u
    have h3 := payloadPhase_ok_tag f (lengthPhase f u) s₁ out hok
    rw [h3, h2, h1]

theorem runLoop_ok_tag {V : Type} (f : RepeatedFieldInfo V) (t : Int)
    (ht : t ≠ 0) :
    ∀ fuel (s : DecoderState) (acc out : List V) (s' : DecoderState),
      s.tag = some t → runLoop f fuel s acc = some (.ok s' out) →
      s'.tag = some t := by
  intro fuel
  induction fuel with
  | zero =>
    intro s acc out s' h hrun
    by_cases hrl : s.readOffset < s.buffer.length
    · rw [runLoop_zero_lt f s acc hrl] at hrun
      cases hrun
    · rw [runLoop_exit f 0 s acc (by omega)] at hrun
      have hinj := Option.some.inj hrun
      cases hinj
      exact h
  | succ fuel ih =>
    intro s acc out s' h hrun
    by_cases hrl : s.readOffset < s.buffer.length
    · rw [runLoop_succ_lt f fuel s acc hrl] at hrun
      rcases hd : decode f s with err | ⟨u, o⟩
      · rw [hd] at hrun
        cases hrun
      · rw [hd] at hrun
        exact ih u (acc ++ o) out s' (decode_ok_tag f s t h ht u o hd) hrun
    · rw [runLoop_exit f _ s acc (by omega)] at hrun
      have hinj := Option.some.inj hrun
      cases hinj
      exact h

/-! ## Arithmetic of the JavaScript bitwise model -/

theorem toUint32_ofNat (n : Nat) (h : n < 4294967296) :
    toUint32 (Int.ofNat n) = n := by
  show ((n : Int) % 4294967296).toNat = n
  omega

theorem ofUint32_small (n : Nat) (h : n < 2147483648) :
    ofUint32 n = Int.ofNat n := by
  unfold ofUint32
  rw [if_pos h]
  rfl

theorem jsShl_small (a k : Nat) (hk : k < 32) (h : a * 2 ^ k < 2147483648) :
    jsShl (Int.ofNat a) k = Int.ofNat (a * 2 ^ k) := by
  have h1 : (1:Nat) ≤ 2 ^ k := Nat.one_le_two_pow
  have ha : a < 4294967296 := by nlinarith
  unfold jsShl
  rw [Nat.mod_eq_of_lt hk, toUint32_ofNat a ha, Nat.shiftLeft_eq,
      Nat.mod_eq_of_lt (by omega), ofUint32_small _ h]

theorem jsOr_small (x y : Nat) (hx : x < 2147483648) (hy : y < 2147483648) :
    jsOr (Int.ofNat x) (Int.ofNat y) = Int.ofNat (x ||| y) := by
  unfold jsOr
  rw [toUint32_ofNat x (by omega), toUint32_ofNat y (by omega)]
  refine ofUint32_small _ ?_
  have h31 : (2147483648 : Nat) = 2 ^ 31 := by norm_num
  rw [h31] at hx hy ⊢
  exact Nat.bitwise_lt_two_pow hx hy

theorem jsOr_shl_step (acc a k : Nat) (hacc : acc < 2 ^ k) (ha : a ≤ 127)
    (hk : k ≤ 21) :
    jsOr (Int.ofNat acc) (jsShl (Int.ofNat a) k) =
      Int.ofNat (acc + a * 2 ^ k) := by
  have h2k : (2:Nat) ^ k ≤ 2 ^ 21 := Nat.pow_le_pow_right (by norm_num) hk
  have hshl : a * 2 ^ k < 2147483648 := by
    calc a * 2 ^ k ≤ 127 * 2 ^ 21 := Nat.mul_le_mul ha h2k
    _ < 2147483648 := by norm_num
  rw [jsShl_small a k (by omega) hshl]
  rw [jsOr_small acc (a * 2 ^ k) (by omega) hshl]
  congr 1
  have hador := Nat.mul_add_lt_is_or hacc a
  rw [Nat.lor_comm, Nat.mul_comm a (2 ^ k), ← hador, Nat.add_comm]

end ProtobufArrayStream

namespace ProtobufArrayStream

/-! ## Packed payload mode is absorbing -/

theorem decode_packed_payload {V : Type} (f : RepeatedFieldInfo V)
    (s : DecoderState) (hp : f.isPacked = true)
    (hs : s.nextToken = Token.PAYLOAD) :
    (∀ s₁ o, decode f s = .ok (s₁, o) → s₁.nextToken = Token.PAYLOAD) ∧
    (∀ x y, decode f s ≠ .error (.tagMismatch x y)) := by
  rw [decode_eq_payload f s hs]
  rcases hscan : payloadScan f s with ⟨fnd, off⟩
  cases fnd
  · rw [payloadPhase_eq_false f s off hs hscan]
    constructor
    · intro s₁ o hok
      cases hok
      exact hs
    · intro x y hc
      cases hc
  · rcases hdec : f.decode (s.buffer.take off) with _ | entry
    · rw [payloadPhase_eq_true_none f s off hs hscan hdec]
      constructor
      · intro s₁ o hok
        cases hok
      · intro x y hc
        have := Except.error.inj hc
        cases this
    · rw [payloadPhase_eq_true_some f s off entry hs hscan hdec,
          if_neg (by rw [hp]; intro hc; cases hc)]
      constructor
      · intro s₁ o hok
        cases hok
        rfl
      · intro x y hc
        cases hc

theorem runLoop_packed_payload {V : Type} (f : RepeatedFieldInfo V)
    (hp : f.isPacked = true) :
    ∀ fuel (s : DecoderState) (acc : List V),
      s.nextToken = Token.PAYLOAD →
      (∀ s' out, runLoop f fuel s acc = some (.ok s' out) →
        s'.nextToken = Token.PAYLOAD) ∧
      (∀ out x y, runLoop f fuel s acc ≠ some (.fail out (.tagMismatch x y))) := by
  intro fuel
  induction fuel with
  | zero =>
    intro s acc hs
    by_cases hrl : s.readOffset < s.buffer.length
    · rw [runLoop_zero_lt f s acc hrl]
      exact ⟨(fun s' out h => nomatch h), (fun out x y h => nomatch h)⟩
    · rw [runLoop_exit f 0 s acc (by omega)]
      constructor
      · intro s' out h
        have hinj := Option.some.inj h
        cases hinj
        exact hs
      · intro out x y h
        have hinj := Option.some.inj h
        cases hinj
  | succ fuel ih =>
    intro s acc hs
    by_cases hrl : s.readOffset < s.buffer.length
    · rw [runLoop_succ_lt f fuel s acc hrl]
      rcases hd : decode f s with err | ⟨u, o⟩
      · have hnm := (decode_packed_payload f s hp hs).2
        constructor
        · intro s' out h
          cases h
        · intro out x y h
          have hinj := Option.some.inj h
          have herr := congrArg (fun R => match R with
            | LoopOutcome.fail _ e => e
            | _ => err) hinj
          simp only at herr
          rw [herr] at hd
          exact hnm x y hd
      · have hu := (decode_packed_payload f s hp hs).1 u o hd
        exact ih u (acc ++ o) hu
    · rw [runLoop_exit f _ s acc (by omega)]
      constructor
      · intro s' out h
        have hinj := Option.some.inj h
        cases hinj
        exact hs
      · intro out x y h
        have hinj := Option.some.inj h
        cases hinj

end ProtobufArrayStream

namespace ProtobufArrayStream

example :
    (feedChunks fixed32FieldNP 20 (initState fixed32FieldNP) []
      [encodeUnpackedFixed32 [1, 2]]).map outcomeOf =
      some ([1], some .payload) := by decide

example :
    feedChunks int32FieldNP 10 (initState int32FieldNP) [] [[0, 5, 8, 6]] =
      some (.ok ⟨[], 0, some 8, Token.TAG, 0⟩ [5, 6]) := by decide

example :
    runLoop int32FieldNP 5 ⟨[8, 133], 0, none, Token.TAG, 0⟩ [] =
      some (.ok ⟨[133], 1, some 8, Token.PAYLOAD, 0⟩ []) := by decide

example : FeedTerm int32FieldNP [[8, 5, 8, 6]] ([5, 6], none) := ⟨10, by decide⟩

end ProtobufArrayStream

namespace ProtobufArrayStream

/-! # Claim theorems -/

/-- Claim C2: for every field configuration, every byte sequence and every
partition of it into an ordered list of chunks, delivering the chunks one at
a time to the decoder terminates with exactly the observable outcomes (the
emitted element sequence together with the error outcome) with which
delivering the whole sequence as a single chunk terminates, and conversely. -/
theorem c2_chunk_boundary_independence {V : Type} (f : RepeatedFieldInfo V)
    (chunks : List (List Nat)) (o : List V × Option StreamError) :
    FeedTerm f chunks o ↔ FeedTerm f [chunks.flatten] o :=
  feed_flatten f chunks (initState f) [] o rfl

/-- Witness for C2 at a concrete input: an unpacked `int32` stream delivered
in four 1-or-2-byte chunks emits the same elements as the single chunk. -/
theorem c2_chunk_boundary_independence_witness :
    FeedTerm int32FieldNP [[8], [5, 8], [6]] ([5, 6], none) :=
  (c2_chunk_boundary_independence int32FieldNP [[8], [5, 8], [6]]
    ([5, 6], none)).mpr ⟨10, by decide⟩

/-- Claim C7: for every varint byte span of at most 4 bytes, `decodeVarint`
computes the base-128 little-endian value: the sum over byte index `i` of
`(byte_i AND 0x7f) * 128 ^ i` (`specVarintValue`), the JavaScript bitwise
truncation notwithstanding. -/
theorem c7_decodeVarint_base128 (bytes : List Nat) (h : bytes.length ≤ 4) :
    decodeVarint bytes = Int.ofNat (specVarintValue bytes) := by
  match bytes with
  | [] => rfl
  | [b0] =>
    have h0 : b0 &&& 127 ≤ 127 := Nat.and_le_right
    simp only [decodeVarint, specVarintValue, List.enum, List.enumFrom,
      List.foldl, MASKS.MSB]
    rw [show (0:Int) = Int.ofNat 0 from rfl]
    rw [jsOr_shl_step 0 (b0 &&& 127) (0 * 7) (by norm_num) h0 (by norm_num)]
    congr 1
  | [b0, b1] =>
    have h0 : b0 &&& 127 ≤ 127 := Nat.and_le_right
    have h1 : b1 &&& 127 ≤ 127 := Nat.and_le_right
    simp only [decodeVarint, specVarintValue, List.enum, List.enumFrom,
      List.foldl, MASKS.MSB]
    rw [show (0:Int) = Int.ofNat 0 from rfl]
    rw [jsOr_shl_step 0 (b0 &&& 127) (0 * 7) (by norm_num) h0 (by norm_num)]
    rw [jsOr_shl_step (0 + (b0 &&& 127) * 2 ^ (0 * 7)) (b1 &&& 127) (1 * 7)
      (by norm_num; omega) h1 (by norm_num)]
    congr 1
  | [b0, b1, b2] =>
    have h0 : b0 &&& 127 ≤ 127 := Nat.and_le_right
    have h1 : b1 &&& 127 ≤ 127 := Nat.and_le_right
    have h2 : b2 &&& 127 ≤ 127 := Nat.and_le_right
    simp only [decodeVarint, specVarintValue, List.enum, List.enumFrom,
      List.foldl, MASKS.MSB]
    rw [show (0:Int) = Int.ofNat 0 from rfl]
    rw [jsOr_shl_step 0 (b0 &&& 127) (0 * 7) (by norm_num) h0 (by norm_num)]
    rw [jsOr_shl_step (0 + (b0 &&& 127) * 2 ^ (0 * 7)) (b1 &&& 127) (1 * 7)
      (by norm_num; omega) h1 (by norm_num)]
    rw [jsOr_shl_step
      (0 + (b0 &&& 127) * 2 ^ (0 * 7) + (b1 &&& 127) * 2 ^ (1 * 7))
      (b2 &&& 127) (2 * 7) (by norm_num; omega) h2 (by norm_num)]
    congr 1
  | [b0, b1, b2, b3] =>
    have h0 : b0 &&& 127 ≤ 127 := Nat.and_le_right
    have h1 : b1 &&& 127 ≤ 127 := Nat.and_le_right
    have h2 : b2 &&& 127 ≤ 127 := Nat.and_le_right
    have h3 : b3 &&& 127 ≤ 127 := Nat.and_le_right
    simp only [decodeVarint, specVarintValue, List.enum, List.enumFrom,
      List.foldl, MASKS.MSB]
    rw [show (0:Int) = Int.ofNat 0 from rfl]
    rw [jsOr_shl_step 0 (b0 &&& 127) (0 * 7) (by norm_num) h0 (by norm_num)]
    rw [jsOr_shl_step (0 + (b0 &&& 127) * 2 ^ (0 * 7)) (b1 &&& 127) (1 * 7)
      (by norm_num; omega) h1 (by norm_num)]
    rw [jsOr_shl_step
      (0 + (b0 &&& 127) * 2 ^ (0 * 7) + (b1 &&& 127) * 2 ^ (1 * 7))
      (b2 &&& 127) (2 * 7) (by norm_num; omega) h2 (by norm_num)]
    rw [jsOr_shl_step
      (0 + (b0 &&& 127) * 2 ^ (0 * 7) + (b1 &&& 127) * 2 ^ (1 * 7)
        + (b2 &&& 127) * 2 ^ (2 * 7))
      (b3 &&& 127) (3 * 7) (by norm_num; omega) h3 (by norm_num)]
    congr 1
  | b0 :: b1 :: b2 :: b3 :: b4 :: rest =>
    simp at h

/-- Witness for C7: the two-byte varint `AC 02` decodes to 300. -/
theorem c7_decodeVarint_base128_witness : decodeVarint [172, 2] = 300 := by
  rw [c7_decodeVarint_base128 [172, 2] (by decide)]
  decide

/-- Claim C8: after the `_transform` loop has finished (possibly leaving a
partial token buffered), the `_flush` loop terminates immediately without
raising any error and without emitting any further element, and `cleanup`
discards the buffered partial trailing bytes. -/
theorem c8_flush_no_error_no_emission {V : Type} (f : RepeatedFieldInfo V)
    (fuel fuel₂ : Nat) (s s' : DecoderState) (acc out : List V)
    (h : runLoop f fuel s acc = some (.ok s' out)) :
    runLoop f fuel₂ s' out = some (.ok s' out) ∧
      (cleanupState s').buffer = [] :=
  ⟨runLoop_exit f fuel₂ s' out (runLoop_ok_rL f fuel s acc out s' h), rfl⟩

/-- Witness for C8: a truncated varint payload (`08 85`, the second byte has
its continuation bit set) stalls the transform loop, and the flush pass then
neither errors nor emits. -/
theorem c8_flush_no_error_no_emission_witness :
    runLoop int32FieldNP 7 ⟨[133], 1, some 8, Token.PAYLOAD, 0⟩
        ([] : List Nat) =
      some (.ok ⟨[133], 1, some 8, Token.PAYLOAD, 0⟩ []) ∧
    (cleanupState ⟨[133], 1, some 8, Token.PAYLOAD, 0⟩).buffer = [] :=
  c8_flush_no_error_no_emission int32FieldNP 5 7
    ⟨[8, 133], 0, none, Token.TAG, 0⟩ _ [] [] (by decide)

/-- Claim C9: for a packed field, once the decoder is in the PAYLOAD state it
never re-enters the TAG or LENGTH states — every loop run from such a state
ends still in PAYLOAD — and no run from such a state can fail with a framing
(tag-mismatch) error. -/
theorem c9_packed_never_reenters_tag {V : Type} (f : RepeatedFieldInfo V)
    (hp : f.isPacked = true) (fuel : Nat) (s : DecoderState) (acc : List V)
    (hs : s.nextToken = Token.PAYLOAD) :
    (∀ s' out, runLoop f fuel s acc = some (.ok s' out) →
      s'.nextToken = Token.PAYLOAD) ∧
    (∀ out x y, runLoop f fuel s acc ≠ some (.fail out (.tagMismatch x y))) :=
  runLoop_packed_payload f hp fuel s acc hs

/-- Witness for C9 at a concrete packed run (two varint elements, then a
byte that looks like a different tag but is consumed as payload). -/
theorem c9_packed_never_reenters_tag_witness :
    (∀ s' out, runLoop int32FieldPacked 10 ⟨[5, 6, 16], 0, some 10,
        Token.PAYLOAD, 0⟩ [] = some (.ok s' out) →
      s'.nextToken = Token.PAYLOAD) ∧
    (∀ out x y, runLoop int32FieldPacked 10 ⟨[5, 6, 16], 0, some 10,
        Token.PAYLOAD, 0⟩ [] ≠ some (.fail out (.tagMismatch x y))) :=
  c9_packed_never_reenters_tag int32FieldPacked rfl 10
    ⟨[5, 6, 16], 0, some 10, Token.PAYLOAD, 0⟩ [] rfl

end ProtobufArrayStream

namespace ProtobufArrayStream

/-- Claim C6: in a varint-scanned token (TAG, LENGTH, or a VARINT-wire-type
PAYLOAD), when every remaining buffered byte has its continuation bit set,
one `decode()` call consumes no token, emits nothing, raises no error, and
changes nothing except `readOffset`, which advances to the buffer end. -/
theorem c6_incomplete_varint_stalls {V : Type} (f : RepeatedFieldInfo V)
    (s : DecoderState) (h : s.readOffset ≤ s.buffer.length)
    (htok : s.nextToken = Token.TAG ∨ s.nextToken = Token.LENGTH ∨
      (s.nextToken = Token.PAYLOAD ∧ f.wireType = WIRE_TYPES.VARINT))
    (hcont : ∀ i, s.readOffset ≤ i → i < s.buffer.length →
      (s.buffer.getD i 0) >>> 7 ≠ 0) :
    decode f s = .ok ({ s with readOffset := s.buffer.length }, []) := by
  have hscan : detectVarint s.buffer s.readOffset = (false, s.buffer.length) := by
    rw [detectVarint_skip s.buffer s.buffer.length le_rfl
      (s.buffer.length - s.readOffset) s.readOffset rfl h hcont]
    exact detectVarint_ge s.buffer s.buffer.length le_rfl
  rcases htok with htok | htok | ⟨htok, hwt⟩
  · rw [decode_eq_ok f s _ (tagPhase_eq_false f s s.buffer.length htok hscan),
        lengthPhase_skip f _ (by show s.nextToken ≠ Token.LENGTH
                                 rw [htok]; intro hc; cases hc),
        payloadPhase_skip f _ (by show s.nextToken ≠ Token.PAYLOAD
                                  rw [htok]; intro hc; cases hc)]
  · rw [decode_eq_length f s htok,
        lengthPhase_eq_false f s s.buffer.length htok hscan,
        payloadPhase_skip f _ (by show s.nextToken ≠ Token.PAYLOAD
                                  rw [htok]; intro hc; cases hc)]
  · rw [decode_eq_payload f s htok,
        payloadPhase_eq_false f s s.buffer.length htok
          (by unfold payloadScan; rw [if_pos hwt]; exact hscan)]

/-- Witness for C6: two continuation bytes in the TAG state. -/
theorem c6_incomplete_varint_stalls_witness :
    decode int32FieldNP ⟨[133, 255], 0, none, Token.TAG, 0⟩ =
      .ok (⟨[133, 255], 2, none, Token.TAG, 0⟩, []) :=
  c6_incomplete_varint_stalls int32FieldNP ⟨[133, 255], 0, none, Token.TAG, 0⟩
    (by decide) (Or.inl rfl) (by decide)

/-- Claim C10: for a LENGTH_DELIMITED field, a LENGTH token decoding to 0
completes the payload immediately: the element obtained by decoding the
empty span is emitted without consuming any further input byte, and the
decoder returns to the TAG state. -/
theorem c10_zero_length_emits_empty {V : Type} (f : RepeatedFieldInfo V)
    (s : DecoderState) (rest : List Nat) (v : V)
    (hwt : f.wireType = WIRE_TYPES.LEN) (hpk : f.isPacked = false)
    (htok : s.nextToken = Token.LENGTH) (hbuf : s.buffer = 0 :: rest)
    (hr : s.readOffset = 0) (hdec : f.decode [] = some v) :
    decode f s = .ok ({ s with
      buffer := rest
      readOffset := 0
      currentPayloadSize := 0
      nextToken := Token.TAG }, [v]) := by
  have hscan : detectVarint s.buffer s.readOffset = (true, 1) := by
    rw [hbuf, hr]
    unfold detectVarint
    rw [show (0 :: rest).length - 0 = rest.length + 1 from by simp,
        detectVarintAux_succ]
    simp
  rw [decode_eq_length f s htok, lengthPhase_eq_true f s 1 htok hscan]
  have hsz : decodeVarint (s.buffer.take 1) = 0 := by
    rw [hbuf, show (0 :: rest).take 1 = [0] from by simp]
    decide
  set u : DecoderState :=
    { s with
      currentPayloadSize :=
        if f.isPacked then s.currentPayloadSize
        else decodeVarint (s.buffer.take 1)
      buffer := s.buffer.drop 1
      readOffset := 0
      nextToken := Token.PAYLOAD } with hu
  have husz : u.currentPayloadSize = 0 := by
    rw [hu]
    show (if f.isPacked then s.currentPayloadSize
      else decodeVarint (s.buffer.take 1)) = 0
    rw [if_neg (by rw [hpk]; intro hc; cases hc), hsz]
  have hscan2 : payloadScan f u = (true, 0) := by
    unfold payloadScan
    rw [if_neg (by rw [hwt]; intro hc; cases hc)]
    show detectPayload u.buffer.length u.currentPayloadSize u.readOffset =
      (true, 0)
    rw [husz, show u.readOffset = 0 from rfl]
    rw [detectPayload_char u.buffer.length 0 0 (by omega)]
    norm_num
  have hdec2 : f.decode (u.buffer.take 0) = some v := by
    rw [List.take_zero]
    exact hdec
  rw [payloadPhase_eq_true_some f u 0 v (by rw [hu]) hscan2 hdec2,
      if_pos hpk]
  show Except.ok ({ u with
    buffer := u.buffer.drop 0
    readOffset := 0
    currentPayloadSize := 0
    nextToken := Token.TAG }, [v]) = _
  rw [List.drop_zero]
  have hub : u.buffer = rest := by
    rw [hu]
    show s.buffer.drop 1 = rest
    rw [hbuf]
    rfl
  rw [hub]

/-- Witness for C10: a `bytes` field hitting the stream `0A 00`-style length
byte `00` followed by more input emits the empty buffer at once. -/
theorem c10_zero_length_emits_empty_witness :
    decode bytesFieldNP ⟨[0, 7], 0, some 10, Token.LENGTH, 0⟩ =
      .ok (⟨[7], 0, some 10, Token.TAG, 0⟩, [([] : List Nat)]) :=
  c10_zero_length_emits_empty bytesFieldNP ⟨[0, 7], 0, some 10, Token.LENGTH, 0⟩
    [7] [] rfl rfl rfl rfl rfl rfl

end ProtobufArrayStream

namespace ProtobufArrayStream

/-- Counterexample to claim C4 as stated: when the first TAG token decodes
to 0, the source's falsy guard `if (!this.tag)` treats the stored tag as
still unset.  On the stream `00 05 08 06` (first tag 0, second tag 8) the
decoder emits both elements, raises no framing error, and the stored tag is
reassigned from `some 0` to `some 8`. -/
theorem c4_zero_tag_counterexample :
    feedChunks int32FieldNP 10 (initState int32FieldNP) [] [[0, 5, 8, 6]] =
      some (.ok ⟨[], 0, some 8, Token.TAG, 0⟩ [5, 6]) := by decide

/-- Claim C4 (amended: the stored tag must be nonzero, which holds for every
standard protobuf tag since field numbers are positive): once `tag` holds a
nonzero value it is never reassigned — by any single `decode()` call or any
run of the decode loop — and a completed TAG token whose decoded value
differs from it makes `decode()` throw the framing error without emitting
anything from the mismatched entry. -/
theorem c4_tag_never_reassigned {V : Type} (f : RepeatedFieldInfo V)
    (s : DecoderState) (t : Int) (htag : s.tag = some t) (ht : t ≠ 0) :
    (∀ s₁ out, decode f s = .ok (s₁, out) → s₁.tag = some t) ∧
    (∀ fuel acc s' out, runLoop f fuel s acc = some (.ok s' out) →
      s'.tag = some t) ∧
    (s.nextToken = Token.TAG →
      ∀ off, detectVarint s.buffer s.readOffset = (true, off) →
        decodeVarint (s.buffer.take off) ≠ t →
        decode f s = .error (.tagMismatch t (decodeVarint (s.buffer.take off)))) := by
  refine ⟨?_, ?_, ?_⟩
  · intro s₁ out hok
    exact decode_ok_tag f s t htag ht s₁ out hok
  · intro fuel acc s' out hrun
    exact runLoop_ok_tag f t ht fuel s acc out s' htag hrun
  · intro htok off hscan hne
    have hfalsy : tagIsFalsy s.tag = false := by
      simp [tagIsFalsy, htag, ht]
    have hgd : s.tag.getD 0 = t := by rw [htag]; rfl
    have hterr : tagPhase f s =
        .error (.tagMismatch t (decodeVarint (s.buffer.take off))) := by
      rw [tagPhase_eq_true f s off htok hscan, hfalsy]
      simp only [Bool.false_eq_true, if_false]
      rw [hgd, if_pos hne]
    exact decode_eq_error f s _ hterr

/-- Witness for the amended C4: with stored tag 8, a TAG token decoding to
16 makes `decode()` fail with the framing error. -/
theorem c4_tag_never_reassigned_witness :
    decode int32FieldNP ⟨[16, 7], 0, some 8, Token.TAG, 0⟩ =
      .error (.tagMismatch 8 16) := by
  have h := (c4_tag_never_reassigned int32FieldNP
    ⟨[16, 7], 0, some 8, Token.TAG, 0⟩ 8 rfl (by decide)).2.2 rfl 1
    (by decide) (by decide)
  rw [show decodeVarint (List.take 1 [16, 7]) = 16 from by decide] at h
  exact h

/-- Claim C1 is violated by the code (code bug): for the unpacked `fixed32`
encoding of the values `[1, 2]` — the standard wire format `0d 01 00 00 00
0d 02 00 00 00` — the decoder emits only the first value and then fails with
a payload decode error, because after the first element it frames the second
payload as a 0-byte span instead of 4 bytes. -/
theorem c1_unpacked_fixed32_roundtrip_fails :
    (feedChunks fixed32FieldNP 20 (initState fixed32FieldNP) []
      [encodeUnpackedFixed32 [1, 2]]).map outcomeOf =
      some ([1], some .payload) := by decide

/-- Claim C3 is violated by the code (code bug): on the hand-written
non-packed fixed32 stream `0d 01 00 00 00 0d 02 00 00 00` the decoder
accumulates 4 bytes for the first element but 0 bytes for the second —
`currentPayloadSize` is reset to 0 and never re-derived from the wire type —
so the run emits `1` and then fails with a payload decode error on the empty
span. -/
theorem c3_nonpacked_fixed32_zero_span :
    feedChunks fixed32FieldNP 20 (initState fixed32FieldNP) []
      [[13, 1, 0, 0, 0, 13, 2, 0, 0, 0]] =
      some (.fail [1] .payload) := by decide

end ProtobufArrayStream

namespace ProtobufArrayStream

theorem validateMessage_none (root : ProtoRoot) (messageName : String)
    (hl : lookupType root messageName = none) :
    validateMessage root messageName = .error (.notExists messageName) := by
  unfold validateMessage
  rw [hl]

theorem validateMessage_some (root : ProtoRoot) (messageName : String)
    (msg : ProtoMessage) (hl : lookupType root messageName = some msg) :
    validateMessage root messageName =
      match msg.fieldsArray.head? with
      | none => .error (.emptyField messageName)
      | some fld =>
        if msg.fieldsArray.length > 1 then
          .error (.moreFields messageName msg.fieldsArray.length)
        else if fld.repeated = false then
          .error (.notRepeated messageName fld.name)
        else .ok () := by
  unfold validateMessage
  rw [hl]

/-- Claim C5: construction-time validation fails in exactly four cases —
type not found, zero fields, more than one field, sole field not repeated —
each with its own distinguishable error, and succeeds otherwise. -/
theorem c5_validateMessage_taxonomy (root : ProtoRoot) (messageName : String) :
    ((validateMessage root messageName = .ok ()) ↔
      (∃ msg, lookupType root messageName = some msg ∧
        msg.fieldsArray.length = 1 ∧
        ∀ fld ∈ msg.fieldsArray, fld.repeated = true)) ∧
    (lookupType root messageName = none →
      validateMessage root messageName = .error (.notExists messageName)) ∧
    (∀ msg, lookupType root messageName = some msg → msg.fieldsArray = [] →
      validateMessage root messageName = .error (.emptyField messageName)) ∧
    (∀ msg, lookupType root messageName = some msg →
      1 < msg.fieldsArray.length →
      validateMessage root messageName =
        .error (.moreFields messageName msg.fieldsArray.length)) ∧
    (∀ msg fld, lookupType root messageName = some msg →
      msg.fieldsArray = [fld] → fld.repeated = false →
      validateMessage root messageName =
        .error (.notRepeated messageName fld.name)) := by
  refine ⟨?_, ?_, ?_, ?_, ?_⟩
  · constructor
    · intro hok
      rcases hl : lookupType root messageName with _ | msg
      · rw [validateMessage_none root messageName hl] at hok
        cases hok
      · rw [validateMessage_some root messageName msg hl] at hok
        rcases hf : msg.fieldsArray with _ | ⟨fld, rest⟩
        · rw [hf] at hok
          cases hok
        · rw [hf] at hok
          replace hok :
              (if (fld :: rest).length > 1 then
                Except.error
                  (ValidationError.moreFields messageName (fld :: rest).length)
              else if fld.repeated = false then
                Except.error
                  (ValidationError.notRepeated messageName fld.name)
              else Except.ok ()) = Except.ok () := hok
          split at hok
          · cases hok
          · split at hok
            · cases hok
            · rename_i hlen hrep
              have hrest : rest = [] := by
                simp only [List.length_cons] at hlen
                exact List.length_eq_zero.mp (by omega)
              refine ⟨msg, rfl, ?_, ?_⟩
              · rw [hf, hrest]
                rfl
              · intro fld' hmem
                rw [hf, hrest] at hmem
                simp at hmem
                subst hmem
                cases hfr : fld'.repeated
                · exact absurd hfr hrep
                · rfl
    · rintro ⟨msg, hl, hlen, hrep⟩
      rcases hf : msg.fieldsArray with _ | ⟨fld, rest⟩
      · rw [hf] at hlen
        cases hlen
      · have hrest : rest = [] := by
          rw [hf] at hlen
          simp only [List.length_cons] at hlen
          exact List.length_eq_zero.mp (by omega)
        have hfr : fld.repeated = true := by
          apply hrep
          rw [hf]
          exact List.mem_cons_self fld rest
        subst hrest
        rw [validateMessage_some root messageName msg hl, hf]
        show (if [fld].length > 1 then
            Except.error (ValidationError.moreFields messageName [fld].length)
          else if fld.repeated = false then
            Except.error (ValidationError.notRepeated messageName fld.name)
          else Except.ok ()) = Except.ok ()
        rw [if_neg (by simp), if_neg (by rw [hfr]; intro hc; cases hc)]
  · intro hl
    exact validateMessage_none root messageName hl
  · intro msg hl hf
    rw [validateMessage_some root messageName msg hl, hf]
    rfl
  · intro msg hl hlen
    rcases hf : msg.fieldsArray with _ | ⟨fld, rest⟩
    · rw [hf] at hlen
      cases hlen
    · rw [hf] at hlen
      rw [validateMessage_some root messageName msg hl, hf]
      show (if (fld :: rest).length > 1 then
          Except.error
            (ValidationError.moreFields messageName (fld :: rest).length)
        else if fld.repeated = false then
          Except.error (ValidationError.notRepeated messageName fld.name)
        else Except.ok ()) =
        Except.error (ValidationError.moreFields messageName (fld :: rest).length)
      rw [if_pos hlen]
  · intro msg fld hl hf hr
    rw [validateMessage_some root messageName msg hl, hf]
    show (if [fld].length > 1 then
        Except.error (ValidationError.moreFields messageName [fld].length)
      else if fld.repeated = false then
        Except.error (ValidationError.notRepeated messageName fld.name)
      else Except.ok ()) =
      Except.error (ValidationError.notRepeated messageName fld.name)
    rw [if_neg (by simp), if_pos (by rw [hr])]

/-- Witness for C5: on a two-type root, validation succeeds for the
single-repeated-field message and fails with the not-repeated error for the
other. -/
theorem c5_validateMessage_taxonomy_witness :
    validateMessage
        ⟨[("Good", ⟨[⟨"xs", true⟩]⟩), ("Bad", ⟨[⟨"x", false⟩]⟩)]⟩ "Good" =
      .ok () ∧
    validateMessage
        ⟨[("Good", ⟨[⟨"xs", true⟩]⟩), ("Bad", ⟨[⟨"x", false⟩]⟩)]⟩ "Bad" =
      .error (.notRepeated "Bad" "x") := by
  constructor
  · exact (c5_validateMessage_taxonomy
      ⟨[("Good", ⟨[⟨"xs", true⟩]⟩), ("Bad", ⟨[⟨"x", false⟩]⟩)]⟩ "Good").1.mpr
      ⟨⟨[⟨"xs", true⟩]⟩, by decide, by decide, by decide⟩
  · exact (c5_validateMessage_taxonomy
      ⟨[("Good", ⟨[⟨"xs", true⟩]⟩), ("Bad", ⟨[⟨"x", false⟩]⟩)]⟩ "Bad").2.2.2.2
      ⟨[⟨"x", false⟩]⟩ ⟨"x", false⟩ (by decide) rfl rfl

end ProtobufArrayStream
